import Mathlib

/-!
# Verification of the dance scheduler engine (dance_scheduler.py)

Shallow embedding of the scheduling core: the `Routine` data model, the
pairwise scoring function `score2routines`, the routine-in-schedule scoring
function `scoreRoutInSched`, the whole-schedule objective `scoreSchedule`,
the recursive placement search `sortHelper`/`sortRoutines`, and `Scheduler`
construction (fixed-position placement, conflict detection, intermission
placement).

Python integers are unbounded, so all arithmetic is modelled with `Int`
(no wrap-around); `sys.maxsize` is the 64-bit CPython constant
9223372036854775807, an ordinary number in Python arithmetic.  Python
object identity is modelled by an `id` field on `Routine`: the class
defines no `__eq__` (the draft in the source is commented out), so `==`
and `in` compare identity.  Code that can raise at runtime is modelled
with `Option`/`Except`.
-/

namespace DanceSched

/-- `sys.maxsize` on a 64-bit CPython build: 2^63 - 1.  Used by the source
as the sentinel for an unknown `duration` or an unassigned `order`, and as
the "maximum compatibility" value in `score2routines`. -/
def maxsize : Int := 9223372036854775807

/-- The `Routine` record from the source (`Routine.__init__`): a name, a
performer list (performer object identities, modelled as `Nat` ids), a
duration in seconds, an assigned order, and an energy flag.  The `id`
field models Python object identity: `Routine` defines no `__eq__`
(the draft one is commented out in the source), so `==` between routines
compares identity. -/
structure Routine where
  id : Nat
  name : String
  performers : List Nat
  duration : Int
  order : Int
  energy : Bool
deriving Repr, DecidableEq

/-- The empty placeholder `Routine('',[])`: defaults from the source are
`duration = sys.maxsize`, `order = sys.maxsize`, `energy = True`.  The
initial schedule `[Routine('',[])] * (len(routines) + 1)` repeats one
single placeholder object, so all empty slots share one identity;
we reserve id 0 for it. -/
def emptyRoutine : Routine :=
  { id := 0, name := "", performers := [], duration := maxsize,
    order := maxsize, energy := true }

/-- `Routine.score()` from the source: the sum of `performer.score()` over
the routine's performer list (`Performer.score()` is the squared length of
the performer's routine list; during scoring those lists are fixed, so the
per-performer score is supplied as an environment function `pscore`). -/
def Routine.score (pscore : Nat → Nat) (r : Routine) : Int :=
  ((r.performers.map pscore).sum : Nat)

/-- `Routine.samePerformers` from the source: the sublist of `r0`'s
performers that also occur in `r1.performers` (membership is Python `in`,
which is identity comparison since `Performer` defines no `__eq__`). -/
def Routine.samePerformers (r0 r1 : Routine) : List Nat :=
  r0.performers.filter (fun p => p ∈ r1.performers)

/-- Python `abs(routInd0 - routInd1) == 1` for `Nat` indices. -/
def adjacent (i0 i1 : Nat) : Prop := max i0 i1 - min i0 i1 = 1

instance (i0 i1 : Nat) : Decidable (adjacent i0 i1) := by
  unfold adjacent; infer_instance

/-- `Scheduler.score2routines(routInd0, routInd1, schedule, rout0, rout1)`
from the source, with the two routines passed explicitly (as every call
site inside the engine does).  If the routines share no performer the
result is the `maxsize` sentinel, minus 1 exactly when the two positions
are adjacent and both routines are low-energy.  Otherwise the base score
(sum of the two routines' scores) is increased, for every position
strictly between the indices, by `priorityScale` times that position's
duration — with `priorityScale * (rout0.duration + rout1.duration) // 2`
standing in when that duration is the `maxsize` sentinel (Python's `*`
and `//` are left-associative, so the floor division applies to the
already-scaled product) — plus both durations when adjacent and both
low-energy.  Every in-between index `j` is within bounds at every call
site (`j < routInd1 ≤ schedule.length`), so the total `getD` access is
exact. -/
def score2routines (pscore : Nat → Nat) (routInd0 routInd1 : Nat)
    (schedule : List Routine) (rout0 rout1 : Routine) : Int :=
  let same := rout0.samePerformers rout1
  if same = [] then
    maxsize -
      (if adjacent routInd0 routInd1 ∧ rout0.energy = false ∧ rout1.energy = false
       then 1 else 0)
  else
    let priorityScale : Int := ((same.map pscore).sum : Nat)
    let base := rout0.score pscore + rout1.score pscore
    let between :=
      ((List.range' (routInd0 + 1) (routInd1 - (routInd0 + 1))).map (fun j =>
        let d := (schedule.getD j emptyRoutine).duration
        if d = maxsize then
          Int.fdiv (priorityScale * (rout0.duration + rout1.duration)) 2
        else
          priorityScale * d)).sum
    base + between +
      (if adjacent routInd0 routInd1 ∧ rout0.energy = false ∧ rout1.energy = false
       then rout0.duration + rout1.duration else 0)

/-- The skip test `schedule[i] == Routine('',[])` in `scoreRoutInSched`:
`Routine` defines no `__eq__` (the source's draft is commented out), so
Python `==` falls back to object identity, and the right operand is a
freshly constructed object — never identical to any object already in the
schedule.  The test is therefore constantly `false`. -/
def pyEqFreshEmpty (_ : Routine) : Bool := false

/-- `Scheduler.scoreRoutInSched(rout, pos, schedule)` from the source: the
sum over every index `i` of the schedule, skipping `i == pos` and skipping
`schedule[i] == Routine('',[])` (a test that never fires, see
`pyEqFreshEmpty`), of `score2routines(i, pos, schedule, schedule[i], rout)`.
The occupied-slot check at the top of the source function only prints and
continues; it does not change the returned value. -/
def scoreRoutInSched (pscore : Nat → Nat) (rout : Routine) (pos : Nat)
    (schedule : List Routine) : Int :=
  ((List.range schedule.length).map (fun i =>
    if i = pos ∨ pyEqFreshEmpty (schedule.getD i emptyRoutine) = true then 0
    else score2routines pscore i pos schedule (schedule.getD i emptyRoutine) rout)).sum

/-- The spec's description of `scoreRoutInSched` (§4.3 of the spec, claim
C4): the same sum, but genuinely skipping every position that holds the
empty placeholder.  Stated from the spec's words for comparison with the
source function. -/
def scoreRoutInSchedSpec (pscore : Nat → Nat) (rout : Routine) (pos : Nat)
    (schedule : List Routine) : Int :=
  ((List.range schedule.length).map (fun i =>
    if i = pos ∨ schedule.getD i emptyRoutine = emptyRoutine then 0
    else score2routines pscore i pos schedule (schedule.getD i emptyRoutine) rout)).sum

/-- The inner loop `for j in range(order_i + 1, order_next): rest +=
schedule[j].duration` of `scoreSchedule`.  Indexing `schedule[j]` raises
`IndexError` when `j ≥ len(schedule)` (the loop runs over *orders*, which
may be the `maxsize` sentinel), modelled by `none`.  A negative start
would Python-wrap instead of raising; it is modelled as `none` here, and
no theorem below applies the function to a pair with a negative order. -/
def pyRangeSumDur (schedule : List Routine) (a b : Int) : Option Int :=
  if b ≤ a then some 0
  else if 0 ≤ a ∧ b ≤ (schedule.length : Int) then
    some (((List.range' a.toNat (b - a).toNat).map
      (fun j => (schedule.getD j emptyRoutine).duration)).sum)
  else none

/-- The per-performer rest loop of `Scheduler.scoreSchedule`: walk the
performer's routine list in consecutive pairs; whenever
`routs[i].order - routs[i+1].order <= 1` subtract both durations; always
add the durations of the schedule entries at positions in
`range(routs[i].order + 1, routs[i+1].order)`. -/
def perfRest (schedule : List Routine) : List Routine → Option Int
  | r0 :: r1 :: rest => do
      let mid ← pyRangeSumDur schedule (r0.order + 1) r1.order
      let tail ← perfRest schedule (r1 :: rest)
      pure ((if r0.order - r1.order ≤ 1 then -(r0.duration + r1.duration) else 0)
            + mid + tail)
  | _ => some 0

/-- The spec's description of the rest component (§4.4 of the spec, claim
C2): for each consecutive pair of the performer's routines, if the two
positions are adjacent subtract both durations, and otherwise add the
durations of every routine strictly between the two positions.  Stated
from the spec's words for comparison with the source loop. -/
def perfRestSpec (schedule : List Routine) : List Routine → Int
  | r0 :: r1 :: rest =>
      (if r0.order - r1.order = 1 ∨ r1.order - r0.order = 1 then
        -(r0.duration + r1.duration)
      else
        (((List.range' ((min r0.order r1.order) + 1).toNat
            ((max r0.order r1.order) - (min r0.order r1.order) - 1).toNat).map
          (fun j => (schedule.getD j emptyRoutine).duration)).sum))
      + perfRestSpec schedule (r1 :: rest)
  | _ => 0

/-- The low-energy adjacency component of `scoreSchedule`: for every
adjacent pair of schedule positions holding two low-energy routines, add
both durations. -/
def energyPenalty (schedule : List Routine) : Int :=
  ((List.range (schedule.length - 1)).map (fun i =>
    let a := schedule.getD i emptyRoutine
    let b := schedule.getD (i + 1) emptyRoutine
    if a.energy = false ∧ b.energy = false then a.duration + b.duration else 0)).sum

/-- `Scheduler.scoreSchedule(schedule)` from the source.  `perfViews` is
the scheduler's performer list, each performer represented by their
routine list (`Performer.score()` is the squared length of that list).
`none` models the `IndexError` the source raises when a performer holds a
routine with a small order directly followed by one with the `maxsize`
sentinel order. -/
def scoreSchedule (perfViews : List (List Routine)) (schedule : List Routine) :
    Option Int := do
  let rests ← perfViews.mapM (fun routs => do
    let r ← perfRest schedule routs
    pure (r * ((routs.length : Int) * (routs.length : Int))))
  pure (rests.sum + energyPenalty schedule)

/-- First index of the maximum of `f` over a list (Python
`l.index(max(l, key=f))`): `max` keeps the earliest element whose key is
maximal (replacement only on strict `>`), and `index` then returns that
element's first occurrence, which holds the same key. -/
def firstArgmaxAux (f : Nat → Int) : List Nat → Nat → Nat → Int → Nat
  | [], _, best, _ => best
  | x :: xs, cur, best, bestVal =>
      if f x > bestVal then firstArgmaxAux f xs (cur + 1) cur (f x)
      else firstArgmaxAux f xs (cur + 1) best bestVal

/-- `unused.index(max(unused, key=lambda x: self.routines[x]))` from
`sortHelper`: the position in the list of the first element with maximal
key. -/
def firstArgmax (f : Nat → Int) : List Nat → Option Nat
  | [] => none
  | x :: xs => some (firstArgmaxAux f xs 1 0 (f x))

/-- One step of the best-`n` bookkeeping loop in `sortHelper`.  The
source keeps two parallel lists `pos` and `scores`, transformed
identically; they are modelled as one list of `(position, score)` pairs.
On the first slot `j` with `score > scores[j]` the source executes
`scores = scores[:j] + [score] + scores[j+1:-1]` (and the same slicing on
`pos`): slot `j` is overwritten and the final element is dropped as well,
so every such update on a non-final slot shrinks the lists by one.
Recursive form of that update: at the matching slot the result is
`c :: rest.dropLast` — `b.take j ++ c :: (b.drop (j+1)).dropLast`
unfolded one head at a time. -/
def beamStep : List (Nat × Int) → (Nat × Int) → List (Nat × Int)
  | [], _ => []
  | e :: rest, c => if c.2 > e.2 then c :: rest.dropLast else e :: beamStep rest c

/-- The candidate scan of `sortHelper`: every position `i` of the schedule
with `schedule[i].name == ''`, paired with
`scoreRoutInSched(rout, i, schedule)`, in scan order. -/
def candScan (pscore : Nat → Nat) (rout : Routine) (schedule : List Routine) :
    List (Nat × Int) :=
  (List.range schedule.length).filterMap (fun i =>
    if (schedule.getD i emptyRoutine).name = "" then
      some (i, scoreRoutInSched pscore rout i schedule)
    else none)

/-- The best-`n` position selection of `sortHelper`: fold `beamStep` over
the candidate scan, starting from `pos = [0] * min(n, len(unused))` and
`scores = [0] * len(pos)`. -/
def beamScan (pscore : Nat → Nat) (rout : Routine) (schedule : List Routine)
    (k : Nat) : List (Nat × Int) :=
  (candScan pscore rout schedule).foldl beamStep (List.replicate k (0, 0))

/-- The spec's description of the candidate retention (claim C1): the top
`k` candidates by score, ties broken by first-seen order during the scan —
a stable selection: each retained candidate, in output order, is the
first-seen candidate with maximal score among those not yet retained. -/
def specTopK : Nat → List (Nat × Int) → List (Nat × Int)
  | 0, _ => []
  | _ + 1, [] => []
  | k + 1, c :: cs =>
      let best := cs.foldl (fun b e => if e.2 > b.2 then e else b) c
      best :: specTopK k ((c :: cs).eraseP (fun e => e == best))

/-- Sequence a list of optional values: `none` as soon as one entry is
`none` (a raised exception in any branch propagates). -/
def seqOption {α : Type} : List (Option α) → Option (List α)
  | [] => some []
  | none :: _ => none
  | some a :: rest => (seqOption rest).map (a :: ·)

/-- `max(scheds, key=...)` from `sortHelper`, on pre-keyed pairs: the
first element whose key is maximal (Python replaces the running maximum
only on strict `>`).  `none` on the empty list (Python raises). -/
def pyMaxByKeyed {α : Type} : List (α × Int) → Option α
  | [] => none
  | (a, k) :: rest =>
      some (rest.foldl (fun b e => if e.2 > b.2 then (e.1, e.2) else b) (a, k)).1

/-- The scheduler's environment during the search: the caller's routine
list (`self.routines`), the per-performer priority score (fixed during
the search, since performer lists do not change), and the performer views
used by `scoreSchedule`. -/
structure Env where
  routines : List Routine
  pscore : Nat → Nat
  perfViews : List (List Routine)

/-- `schedule[:p] + [rout] + schedule[p+1:]` for `p < len(schedule)`. -/
def placeAt (schedule : List Routine) (r : Routine) (p : Nat) : List Routine :=
  schedule.set p r

/-- `Scheduler.sortHelper(schedule, unused, n=3)` from the source, with
explicit fuel (the Python recursion consumes one element of `unused` per
level, so `unused.length + 1` fuel always suffices; `sortHelper` below
supplies it).  The recursion: pick the first unused index of maximal
routine score, build the best-`n` beam over the empty positions with
`n = 3` (every call, including the recursive ones, uses the default),
recurse on each retained position, and return the first descendant with
maximal `scoreSchedule`.  `none` models a raised exception
(in `scoreSchedule`) or exhausted fuel. -/
def sortHelperFuel (env : Env) : Nat → List Routine → List Nat → Option (List Routine)
  | 0, _, _ => none
  | fuel + 1, schedule, unused =>
    if unused = [] then some schedule
    else
      match firstArgmax (fun x => (env.routines.getD x emptyRoutine).score env.pscore) unused with
      | none => none
      | some ind =>
        let rout := env.routines.getD (unused.getD ind 0) emptyRoutine
        let beam := beamScan env.pscore rout schedule (min 3 unused.length)
        let rest := unused.take ind ++ unused.drop (ind + 1)
        match seqOption (beam.map (fun pi =>
            sortHelperFuel env fuel (placeAt schedule rout pi.1) rest)) with
        | none => none
        | some scheds =>
          match seqOption (scheds.map (fun s => scoreSchedule env.perfViews s)) with
          | none => none
          | some keys => pyMaxByKeyed (scheds.zip keys)

/-- `sortHelper` with the fuel it actually needs. -/
def sortHelper (env : Env) (schedule : List Routine) (unused : List Nat) :
    Option (List Routine) :=
  sortHelperFuel env (unused.length + 1) schedule unused

/-- Python indexing `l[i]` for `Int` subscripts on a list of length
`len`: in-range indices and negative wrap-around, `none` on `IndexError`. -/
def pyIndex (len : Nat) (i : Int) : Option Nat :=
  if 0 ≤ i ∧ i < (len : Int) then some i.toNat
  else if -(len : Int) ≤ i ∧ i < 0 then some ((len : Int) + i).toNat
  else none

/-- Errors raised during `Scheduler.__init__`. -/
inductive BuildErr : Type
  /-- The conflict handler at source lines 200-206 evaluates
  `"Original:\n" + x` with `x` a `Routine` object, raising an uncaught
  `TypeError` (can only concatenate `str` to `str`), so a detected
  fixed-position conflict aborts construction. -/
  | conflictTypeError : BuildErr
  /-- Source line 192 reads the undefined name `intermLength` (the
  parameter is spelled `interLength`), so the explicit-intermission
  branch raises `NameError` unconditionally. -/
  | interNameError : BuildErr
  /-- The intermission zig-zag left the schedule bounds and the final
  assignment `self.schedule[interOrder] = ...` raises `IndexError`. -/
  | interIndexError : BuildErr
deriving Repr, DecidableEq

instance {ε α : Type} [DecidableEq ε] [DecidableEq α] : DecidableEq (Except ε α) :=
  fun x y =>
  match x, y with
  | .ok a, .ok b =>
      if h : a = b then .isTrue (congrArg Except.ok h)
      else .isFalse (fun hc => h (Except.ok.inj hc))
  | .ok _, .error _ => .isFalse (fun hc => Except.noConfusion hc)
  | .error _, .ok _ => .isFalse (fun hc => Except.noConfusion hc)
  | .error e, .error f =>
      if h : e = f then .isTrue (congrArg Except.error h)
      else .isFalse (fun hc => h (Except.error.inj hc))

/-- The fixed-position placement loop of `Scheduler.__init__` (source
lines 195-209), over the enumerated routine list: a routine with
`order < len(schedule)` is placed at `schedule[order]` unless the
occupant's `order` equals it (a conflict, which aborts construction —
see `BuildErr.conflictTypeError`); other routines' indices are appended
to `unused`. -/
def placeFixed : List (Nat × Routine) → List Routine → List Nat →
    Except BuildErr (List Routine × List Nat)
  | [], schedule, unused => .ok (schedule, unused)
  | (i, r) :: rest, schedule, unused =>
    if r.order < (schedule.length : Int) then
      match pyIndex schedule.length r.order with
      | none => .error .interIndexError
      | some p =>
        if (schedule.getD p emptyRoutine).order = r.order then
          .error .conflictTypeError
        else placeFixed rest (schedule.set p r) unused
    else placeFixed rest schedule (unused ++ [i])

/-- The intermission search loop of `Scheduler.__init__` (source lines
220-226), parameterised by the occupancy test
`occ io = (schedule[io].order != sys.maxsize)`: while the current index
is in range and occupied, subtract the counter when it is even and add it
when odd, then increment the counter.  Fuel-based; `interLoopFuelEnough`
below shows `2 * len + 4` fuel always suffices. -/
def interLoop (occ : Int → Bool) (len : Nat) : Nat → Int → Nat → Option Int
  | 0, _, _ => none
  | fuel + 1, io, counter =>
    if 0 ≤ io ∧ io < (len : Int) ∧ occ io then
      interLoop occ len fuel
        (if counter % 2 = 0 then io - counter else io + counter) (counter + 1)
    else some io

/-- The intermission index computed by `Scheduler.__init__` when no
explicit position is supplied: run `interLoop` from `len(schedule) // 2`
with counter 0. -/
def codeInterOrder (occ : Int → Bool) (len : Nat) : Option Int :=
  interLoop occ len (2 * len + 4) ((len / 2 : Nat) : Int) 0

/-- The intermission routine `Routine('Intermission', [], interLength,
interOrder)` with a fresh object identity `interId`. -/
def mkIntermission (interId : Nat) (interLength : Int) (io : Int) : Routine :=
  { id := interId, name := "Intermission", performers := [],
    duration := interLength, order := io, energy := true }

/-- `Scheduler.__init__(routines, interLength, interOrder)` from the
source: build the length-`(N+1)` schedule of empty placeholders; when an
explicit `interOrder` is supplied, raise `NameError` (see
`BuildErr.interNameError`); otherwise run the fixed-position placement
loop, then the intermission zig-zag, and place the intermission at the
index it returns (with Python list-assignment indexing).  Returns the
schedule and the `unused` index list. -/
def mkScheduler (routines : List Routine) (interLength : Int) (interId : Nat)
    (interOrder : Option Int) : Except BuildErr (List Routine × List Nat) :=
  match interOrder with
  | some _ => .error .interNameError
  | none =>
    match placeFixed routines.enum
        (List.replicate (routines.length + 1) emptyRoutine) [] with
    | .error e => .error e
    | .ok (sched1, unused) =>
      match codeInterOrder
          (fun io => !((sched1.getD io.toNat emptyRoutine).order == maxsize))
          sched1.length with
      | none => .error .interIndexError
      | some io =>
        match pyIndex sched1.length io with
        | none => .error .interIndexError
        | some p => .ok (sched1.set p (mkIntermission interId interLength io), unused)

/-- The order-synchronisation loop of `Scheduler.sortRoutines` (source
lines 359-369), as a value transformer: every routine's `order` field is
overwritten with its position.  (When the old order differed and was
valid the source also prints a "Moved a set routine" diagnostic and then
falls through to the same assignment; `movedReport` below captures the
diagnostic.  The value model assumes the schedule's entries are distinct
objects, which holds for every schedule the search produces.) -/
def syncOrders (schedule : List Routine) : List Routine :=
  (List.range schedule.length).map (fun i =>
    let r := schedule.getD i emptyRoutine
    if r.order = (i : Int) then r else { r with order := (i : Int) })

/-- The positions at which the `sortRoutines` loop prints the
"Moved a set routine" diagnostic: `schedule[i].order != i` and
`schedule[i].order < len(schedule)`.  The source raises an `Exception`
there and immediately catches it, prints, and continues. -/
def movedReport (schedule : List Routine) : List Nat :=
  (List.range schedule.length).filter (fun i =>
    (schedule.getD i emptyRoutine).order ≠ (i : Int) ∧
    (schedule.getD i emptyRoutine).order < (schedule.length : Int))

/-- `Scheduler` construction followed by `sortRoutines` (the search plus
order synchronisation), as one pipeline on values. -/
def runScheduler (env : Env) (interLength : Int) (interId : Nat) :
    Except BuildErr (Option (List Routine)) :=
  (mkScheduler env.routines interLength interId none).map (fun su =>
    (sortHelper env su.1 su.2).map syncOrders)

/-! ## Closed form of the intermission probe sequence -/

/-- The position tested by the intermission loop at its `c`-th iteration:
`m` for `c = 0` and `c = 1` (the counter-0 update subtracts 0), then
`m + 1, m - 1, m + 2, m - 2, ...`. -/
def codeProbe (m : Int) (c : Nat) : Int :=
  if c % 2 = 0 then m + ((c / 2 : Nat) : Int) else m - (((c - 1) / 2 : Nat) : Int)

/-- The loop-exit condition at iteration `c` of the intermission search:
the probe is out of range or unoccupied. -/
def probeExits (occ : Int → Bool) (len : Nat) (m : Int) (c : Nat) : Prop :=
  ¬(0 ≤ codeProbe m c ∧ codeProbe m c < (len : Int) ∧ occ (codeProbe m c) = true)

instance (occ : Int → Bool) (len : Nat) (m : Int) (c : Nat) :
    Decidable (probeExits occ len m c) := by
  unfold probeExits; infer_instance

/-- The first iteration at which the intermission loop exits (always
defined: the probe at iteration `2 * len` is `len/2 + len`, out of
range). -/
def firstExit (occ : Int → Bool) (len : Nat) : Nat :=
  Nat.find (p := probeExits occ len ((len / 2 : Nat) : Int))
    ⟨2 * len, by
      intro h
      have hc : codeProbe ((len / 2 : Nat) : Int) (2 * len)
          = ((len / 2 : Nat) : Int) + (len : Int) := by
        unfold codeProbe
        have h0 : 2 * len % 2 = 0 := by omega
        have h2 : (2 * len) / 2 = len := by omega
        rw [if_pos h0, h2]
      rw [hc] at h
      obtain ⟨h1, h2, _⟩ := h
      omega⟩

/-- The probe sequence claimed by the spec (§4.1): midpoint,
midpoint−1, midpoint+2, midpoint−3, midpoint+4, … -/
def claimProbe (m : Int) (k : Nat) : Int :=
  if k % 2 = 0 then m + (k : Int) else m - (k : Int)

/-- The intermission position under the claimed probe sequence: the
first claimed probe holding no pre-placed routine; `none` when a probe
runs off either end of the schedule (the claim's error condition). -/
def claimInterOrderAux (occ : Int → Bool) (len : Nat) : Nat → Nat → Option Int
  | 0, _ => none
  | fuel + 1, k =>
    let p := claimProbe ((len / 2 : Nat) : Int) k
    if 0 ≤ p ∧ p < (len : Int) then
      if occ p then claimInterOrderAux occ len fuel (k + 1) else some p
    else none

/-- Top-level entry for the claimed probe sequence. -/
def claimInterOrder (occ : Int → Bool) (len : Nat) : Option Int :=
  claimInterOrderAux occ len (2 * len + 4) 0

/-! ## Invariants carried by the placement search (claim C5) -/

/-- The number of positions holding the empty placeholder (recognised,
as in `sortHelper`, by an empty name). -/
def countEmpty (schedule : List Routine) : Nat :=
  (schedule.filter (fun r => r.name = "")).length

/-- The object identities at the non-empty positions of a schedule. -/
def nonEmptyIds (schedule : List Routine) : List Nat :=
  (schedule.filter (fun r => ¬ r.name = "")).map Routine.id

/-- Global facts about the scheduler's routine list used by the search
invariant: real names, non-negative durations, distinct identities. -/
def envOk (env : Env) : Prop :=
  (∀ r ∈ env.routines, ¬ r.name = "" ∧ 0 ≤ r.duration) ∧
  (env.routines.map Routine.id).Nodup

/-- The state invariant of `sortHelper`: as many empty positions as
unplaced routines; some non-empty, performer-less entry (the
intermission) in the schedule; non-negative durations; in-range unplaced
indices; and all object identities (occupied positions plus unplaced
routines) pairwise distinct. -/
def schedInv (env : Env) (schedule : List Routine) (unused : List Nat) : Prop :=
  countEmpty schedule = unused.length ∧
  (∃ k, ∃ hk : k < schedule.length,
    ¬ (schedule.get ⟨k, hk⟩).name = "" ∧ (schedule.get ⟨k, hk⟩).performers = []) ∧
  (∀ r ∈ schedule, 0 ≤ r.duration) ∧
  (∀ u ∈ unused, u < env.routines.length) ∧
  (nonEmptyIds schedule ++
    unused.map (fun u => (env.routines.getD u emptyRoutine).id)).Nodup

/-! ## Heap model of the Performer/Routine bidirectional links (claim C6)

`Performer.__init__` and `Routine.__init__` mutate Python list objects in
place (`rout.performers.append(self)`) and then rebind the attribute to a
fresh deduplicated list (`rout.performers = list(set(rout.performers))`).
Whether the invariant holds depends on which list *objects* the attributes
reference, so lists are modelled as heap cells: `heap` maps a cell id to
its contents, `perfField p` / `routField r` give the cell currently
referenced by performer `p`'s `routines` attribute / routine `r`'s
`performers` attribute.  Cells 0 and 1 are the two def-time default
argument lists (`routines=[]` of `Performer.__init__` and
`performers=[]` of `Routine.__init__`), shared by every call that omits
the argument. -/

structure LinkSt where
  nextCell : Nat
  heap : Nat → List Nat
  perfField : Nat → Nat
  routField : Nat → Nat
  perfs : List Nat
  routs : List Nat

/-- The loop body of `Performer.__init__` for one routine `r`:
`rout.performers.append(self)` mutates `r`'s current cell in place (every
alias sees the append), then `rout.performers = list(set(...))` rebinds
`r`'s attribute to a fresh cell holding the deduplicated contents
(CPython's set iteration order is arbitrary; only membership matters
below, so `List.dedup` stands in). -/
def linkIntoRout (p : Nat) (st : LinkSt) (r : Nat) : LinkSt :=
  let c := st.routField r
  let appended := st.heap c ++ [p]
  let f := st.nextCell
  { nextCell := f + 1,
    heap := fun x => if x = f then appended.dedup else if x = c then appended else st.heap x,
    perfField := st.perfField,
    routField := fun x => if x = r then f else st.routField x,
    perfs := st.perfs, routs := st.routs }

/-- The loop body of `Routine.__init__` for one performer `p`, the
mirror image of `linkIntoRout`. -/
def linkIntoPerf (r : Nat) (st : LinkSt) (p : Nat) : LinkSt :=
  let c := st.perfField p
  let appended := st.heap c ++ [r]
  let f := st.nextCell
  { nextCell := f + 1,
    heap := fun x => if x = f then appended.dedup else if x = c then appended else st.heap x,
    perfField := fun x => if x = p then f else st.perfField x,
    routField := st.routField,
    perfs := st.perfs, routs := st.routs }

/-- `Performer.__init__(name, routines)` where the caller passes the list
object in cell `c`: set `self.routines = c`, then run the linking loop
over the routines in that list.  (The loop iterates `self.routines`,
whose cell the loop body never mutates: the body touches only
`performers` cells of routines and fresh cells, so the initial snapshot
is the iterated contents.) -/
def mkPerformerAt (st : LinkSt) (p c : Nat) : LinkSt :=
  let st1 : LinkSt :=
    { st with perfField := fun x => if x = p then c else st.perfField x,
              perfs := p :: st.perfs }
  (st1.heap c).foldl (linkIntoRout p) st1

/-- `Routine.__init__(name, performers)` where the caller passes the list
object in cell `c`, the mirror image of `mkPerformerAt`. -/
def mkRoutineAt (st : LinkSt) (r c : Nat) : LinkSt :=
  let st1 : LinkSt :=
    { st with routField := fun x => if x = r then c else st.routField x,
              routs := r :: st.routs }
  (st1.heap c).foldl (linkIntoPerf r) st1

/-- Constructing a Performer from a *fresh* list literal: allocate a new
cell holding `content` and construct with it. -/
def newPerformer (st : LinkSt) (p : Nat) (content : List Nat) : LinkSt :=
  let c := st.nextCell
  mkPerformerAt
    { st with nextCell := c + 1,
              heap := fun x => if x = c then content else st.heap x } p c

/-- Constructing a Routine from a *fresh* list literal. -/
def newRoutine (st : LinkSt) (r : Nat) (content : List Nat) : LinkSt :=
  let c := st.nextCell
  mkRoutineAt
    { st with nextCell := c + 1,
              heap := fun x => if x = c then content else st.heap x } r c

/-- The initial heap: no objects; cells 0 and 1 are the two def-time
default argument lists, both empty. -/
def initLinkSt : LinkSt :=
  { nextCell := 2, heap := fun _ => [], perfField := fun _ => 0,
    routField := fun _ => 0, perfs := [], routs := [] }

/-- The bidirectional link invariant of the spec:
`r ∈ p.routines ⟺ p ∈ r.performers` for every existing performer and
routine. -/
def linked (st : LinkSt) : Prop :=
  ∀ p ∈ st.perfs, ∀ r ∈ st.routs,
    (r ∈ st.heap (st.perfField p) ↔ p ∈ st.heap (st.routField r))

/-- A construction step: a Performer or a Routine built from a fresh
list literal. -/
inductive LinkOp : Type
  | newPerf (p : Nat) (content : List Nat) : LinkOp
  | newRout (r : Nat) (content : List Nat) : LinkOp

/-- Run one construction step. -/
def runOp (st : LinkSt) : LinkOp → LinkSt
  | .newPerf p content => newPerformer st p content
  | .newRout r content => newRoutine st r content

/-- Run a construction trace. -/
def runOps (st : LinkSt) : List LinkOp → LinkSt
  | [] => st
  | op :: rest => runOps (runOp st op) rest

/-- Well-formed trace: each constructed object is new, and each list
literal mentions only objects of the proper kind that already exist. -/
def wfOps (st : LinkSt) : List LinkOp → Prop
  | [] => True
  | op :: rest =>
    (match op with
     | .newPerf p content => p ∉ st.perfs ∧ ∀ r ∈ content, r ∈ st.routs
     | .newRout r content => r ∉ st.routs ∧ ∀ p ∈ content, p ∈ st.perfs) ∧
    wfOps (runOp st op) rest

/-- The strengthened state invariant for the link proof: the
bidirectional invariant itself, pairwise-distinct attribute cells, cell
ids below the allocation frontier, and attribute cells containing only
existing objects of the proper kind. -/
def goodSt (st : LinkSt) : Prop :=
  linked st ∧
  (∀ p ∈ st.perfs, ∀ q ∈ st.perfs, p ≠ q → st.perfField p ≠ st.perfField q) ∧
  (∀ r ∈ st.routs, ∀ s ∈ st.routs, r ≠ s → st.routField r ≠ st.routField s) ∧
  (∀ p ∈ st.perfs, ∀ r ∈ st.routs, st.perfField p ≠ st.routField r) ∧
  (∀ p ∈ st.perfs, st.perfField p < st.nextCell) ∧
  (∀ r ∈ st.routs, st.routField r < st.nextCell) ∧
  (∀ p ∈ st.perfs, ∀ x ∈ st.heap (st.perfField p), x ∈ st.routs) ∧
  (∀ r ∈ st.routs, ∀ x ∈ st.heap (st.routField r), x ∈ st.perfs)

/-- Swap the performer and routine sides of a link state (the two
constructors are mirror images; proofs about `Routine.__init__` are
obtained from the `Performer.__init__` ones through this symmetry). -/
def swapSt (st : LinkSt) : LinkSt :=
  { nextCell := st.nextCell, heap := st.heap,
    perfField := st.routField, routField := st.perfField,
    perfs := st.routs, routs := st.perfs }

/-- The invariant maintained by the linking loop of `Performer.__init__`
(performer `p`, routines-list cell `c` holding `content`), after the
routines in `done` have been processed: the untouched parts of the heap,
freshness and distinctness of the rebound `performers` cells, and the
exact membership change — `p` has been appended to precisely the
`performers` lists of the routines in `done`. -/
def linkFoldInv (st : LinkSt) (p c : Nat) (content done : List Nat)
    (σ : LinkSt) : Prop :=
  σ.perfs = p :: st.perfs ∧
  σ.routs = st.routs ∧
  (∀ q, σ.perfField q = if q = p then c else st.perfField q) ∧
  σ.heap c = content ∧
  c < σ.nextCell ∧
  (∀ q ∈ st.perfs, σ.heap (st.perfField q) = st.heap (st.perfField q)) ∧
  (∀ r ∈ st.routs, σ.routField r < σ.nextCell) ∧
  (∀ r ∈ st.routs, σ.routField r ≠ c) ∧
  (∀ r ∈ st.routs, ∀ s ∈ st.routs, r ≠ s → σ.routField r ≠ σ.routField s) ∧
  (∀ r ∈ st.routs, ∀ q ∈ st.perfs, σ.routField r ≠ st.perfField q) ∧
  (∀ r ∈ st.routs, ∀ x, x ∈ σ.heap (σ.routField r) ↔
    (x ∈ st.heap (st.routField r) ∨ (x = p ∧ r ∈ done)))

instance (st : LinkSt) : Decidable (linked st) := by
  unfold linked; infer_instance

instance (st : LinkSt) : Decidable (goodSt st) := by
  unfold goodSt linked; infer_instance

/-- Decidability of trace well-formedness, by recursion on the trace. -/
def decWfOps : (ops : List LinkOp) → (st : LinkSt) → Decidable (wfOps st ops)
  | [], _ => .isTrue trivial
  | op :: rest, st => by
      have hrec := decWfOps rest (runOp st op)
      unfold wfOps
      cases op with
      | newPerf p content => exact @instDecidableAnd _ _ inferInstance hrec
      | newRout r content => exact @instDecidableAnd _ _ inferInstance hrec

instance (st : LinkSt) (ops : List LinkOp) : Decidable (wfOps st ops) :=
  decWfOps ops st

/-! ## Concrete fixtures used by the claim theorems and witnesses -/

/-- Fixture: a pre-placed routine at position 0 sharing performer 0 with
`fxR1`. -/
def fxB : Routine :=
  { id := 1, name := "B", performers := [0], duration := 100, order := 0, energy := true }

/-- Fixture: an unplaced routine sharing performer 0 with `fxB`. -/
def fxR1 : Routine :=
  { id := 2, name := "R1", performers := [0], duration := 200, order := maxsize, energy := true }

/-- Fixture: an unplaced routine with no performers. -/
def fxR2 : Routine :=
  { id := 3, name := "R2", performers := [], duration := 150, order := maxsize, energy := true }

/-- Fixture environment for claim C1: three routines, performer 0 scoring
4 (they appear in two routines). -/
def fxEnv1 : Env :=
  { routines := [fxB, fxR1, fxR2], pscore := fun p => if p = 0 then 4 else 0,
    perfViews := [] }

/-- The schedule produced by `mkScheduler [fxB, fxR1, fxR2] 900 9 none`:
`fxB` at 0, the intermission at the midpoint 2, empty slots at 1 and 3. -/
def fxSched1 : List Routine := [fxB, emptyRoutine, mkIntermission 9 900 2, emptyRoutine]

/-- Fixture routines for claim C2: a performer (id 0) dancing `fxX`
(position 0) and `fxZ` (position 2), with `fxY` between them. -/
def fxX : Routine :=
  { id := 1, name := "X", performers := [0], duration := 100, order := 0, energy := true }

/-- See `fxX`. -/
def fxY : Routine :=
  { id := 2, name := "Y", performers := [], duration := 50, order := 1, energy := true }

/-- See `fxX`. -/
def fxZ : Routine :=
  { id := 3, name := "Z", performers := [0], duration := 30, order := 2, energy := true }

/-- The claim-C2 schedule. -/
def fxSchedC2 : List Routine := [fxX, fxY, fxZ]

/-- Fixture routines for claim C3: one routine pre-placed at position 2
of a length-5 schedule, three unplaced. -/
def fxC3 : List Routine :=
  [{ id := 1, name := "P2", performers := [], duration := 10, order := 2, energy := true },
   { id := 2, name := "U1", performers := [], duration := 10, order := maxsize, energy := true },
   { id := 3, name := "U2", performers := [], duration := 10, order := maxsize, energy := true },
   { id := 4, name := "U3", performers := [], duration := 10, order := maxsize, energy := true }]

/-- Occupancy of the claim-C3 schedule before intermission placement:
only position 2 is pre-placed. -/
def fxOccC3 : Int → Bool := fun io => io == 2

/-- Fixture candidate routine for claim C4. -/
def fxC : Routine :=
  { id := 9, name := "C", performers := [1], duration := 60, order := maxsize, energy := true }

/-- Fixture schedule for claim C4: an occupied position between two empty
placeholder positions. -/
def fxSchedC4 : List Routine := [emptyRoutine, fxX, emptyRoutine]

/-- Fixture schedule for claim C8: two pre-placed routines that ended up
at swapped positions. -/
def fxSwap : List Routine :=
  [{ id := 1, name := "A", performers := [], duration := 10, order := 1, energy := true },
   { id := 2, name := "B", performers := [], duration := 10, order := 0, energy := true }]

/-- Fixture for claim C9: two routines both requesting fixed position 2. -/
def fxP : Routine :=
  { id := 1, name := "P", performers := [], duration := 10, order := 2, energy := true }

/-- See `fxP`. -/
def fxQ : Routine :=
  { id := 2, name := "Q", performers := [], duration := 10, order := 2, energy := true }

/-- Witness environment for claim C5: one routine, no pre-placed
positions. -/
def fxA : Routine :=
  { id := 1, name := "A", performers := [], duration := 200, order := maxsize, energy := true }

/-- See `fxA`. -/
def fxEnvA : Env := { routines := [fxA], pscore := fun _ => 0, perfViews := [] }

/-- The schedule `runScheduler fxEnvA 900 7` produces: `fxA` at position 0
(order synchronised), the intermission at position 1. -/
def fxOutA : List Routine :=
  [{ id := 1, name := "A", performers := [], duration := 200,
     order := 0, energy := true },
   { id := 7, name := "Intermission", performers := [], duration := 900,
     order := 1, energy := true }]

/-- Claim-C6 counterexample trace, step 1: `Performer('a')` — object 10,
constructed without a `routines` argument, so bound to the def-time
default cell 0. -/
def fxLinkSt1 : LinkSt := mkPerformerAt initLinkSt 10 0

/-- Step 2: `Performer('b')` — object 11, also bound to default cell 0. -/
def fxLinkSt2 : LinkSt := mkPerformerAt fxLinkSt1 11 0

/-- Step 3: `Routine('R', [a])` — object 20, built from a fresh list
literal holding performer 10. -/
def fxLinkSt3 : LinkSt := newRoutine fxLinkSt2 20 [10]

/-- Witness trace for the amended claim C6: `Performer('a')` with a fresh
empty list, then `Routine('R', [a])`, then `Performer('c', [R])`. -/
def fxLinkOps : List LinkOp :=
  [.newPerf 10 [], .newRout 20 [10], .newPerf 11 [20]]

/-! ## Helper lemmas -/

theorem codeProbe_succ (m : Int) (c : Nat) :
    codeProbe m (c + 1) =
      if c % 2 = 0 then codeProbe m c - c else codeProbe m c + c := by
  unfold codeProbe
  split_ifs with h1 h2 h2 <;> omega

theorem interLoop_to_firstExit (occ : Int → Bool) (len : Nat) :
    ∀ fuel c, (∀ b, b < c → ¬ probeExits occ len ((len / 2 : Nat) : Int) b) →
      firstExit occ len < c + fuel →
      interLoop occ len fuel (codeProbe ((len / 2 : Nat) : Int) c) c
        = some (codeProbe ((len / 2 : Nat) : Int) (firstExit occ len)) := by
  intro fuel
  induction fuel with
  | zero =>
      intro c hb hlt
      exact absurd (Nat.find_spec _) (hb _ hlt)
  | succ fuel ih =>
      intro c hb hlt
      by_cases hex : probeExits occ len ((len / 2 : Nat) : Int) c
      · have hge : c ≤ firstExit occ len := by
          by_contra hcon
          exact hb _ (Nat.lt_of_not_le hcon) (Nat.find_spec _)
        have hle : firstExit occ len ≤ c := Nat.find_le hex
        have hc : firstExit occ len = c := Nat.le_antisymm hle hge
        unfold interLoop
        rw [if_neg (by rw [probeExits] at hex; exact hex), hc]
      · unfold interLoop
        rw [if_pos (by rw [probeExits] at hex; exact not_not.mp hex)]
        have hstep : (if c % 2 = 0 then codeProbe ((len / 2 : Nat) : Int) c - c
            else codeProbe ((len / 2 : Nat) : Int) c + c)
            = codeProbe ((len / 2 : Nat) : Int) (c + 1) := (codeProbe_succ _ _).symm
        rw [hstep]
        refine ih (c + 1) (fun b hbs => ?_) (by omega)
        rcases Nat.lt_succ_iff_lt_or_eq.mp hbs with h | h
        · exact hb _ h
        · rw [h]; exact hex

/-- Unfolding `score2routines` in its no-shared-performers branch. -/
theorem score2routines_no_shared (pscore : Nat → Nat) (i0 i1 : Nat)
    (schedule : List Routine) (r0 r1 : Routine)
    (h : r0.samePerformers r1 = []) :
    score2routines pscore i0 i1 schedule r0 r1 =
      maxsize - (if adjacent i0 i1 ∧ r0.energy = false ∧ r1.energy = false
                 then 1 else 0) := by
  simp only [score2routines]
  rw [if_pos h]

/-- Unfolding `score2routines` in its shared-performers branch. -/
theorem score2routines_shared (pscore : Nat → Nat) (i0 i1 : Nat)
    (schedule : List Routine) (r0 r1 : Routine)
    (h : ¬ r0.samePerformers r1 = []) :
    score2routines pscore i0 i1 schedule r0 r1 =
      (r0.score pscore + r1.score pscore) +
      ((List.range' (i0 + 1) (i1 - (i0 + 1))).map (fun j =>
        let d := (schedule.getD j emptyRoutine).duration
        if d = maxsize then
          Int.fdiv (((((r0.samePerformers r1).map pscore).sum : Nat) : Int) *
            (r0.duration + r1.duration)) 2
        else ((((r0.samePerformers r1).map pscore).sum : Nat) : Int) * d)).sum +
      (if adjacent i0 i1 ∧ r0.energy = false ∧ r1.energy = false
       then r0.duration + r1.duration else 0) := by
  simp only [score2routines]
  rw [if_neg h]

/-- A filtered list's mapped sum is bounded by the full mapped sum. -/
theorem mapFilterSumLe (f : Nat → Nat) (p : Nat → Bool) (l : List Nat) :
    ((l.filter p).map f).sum ≤ (l.map f).sum := by
  induction l with
  | nil => simp
  | cons x xs ih =>
      by_cases hx : p x
      · simp only [List.filter_cons, hx, if_pos, List.map_cons, List.sum_cons]
        omega
      · simp only [List.filter_cons, hx, List.map_cons, List.sum_cons]
        simp only [Bool.false_eq_true, if_false]
        omega

theorem beamStep_ne_nil (b : List (Nat × Int)) (c : Nat × Int) (hb : b ≠ []) :
    beamStep b c ≠ [] := by
  cases b with
  | nil => exact absurd rfl hb
  | cons e rest =>
      unfold beamStep
      split_ifs <;> simp

theorem beamStep_struc (c : Nat × Int) (hc : 0 < c.2) :
    ∀ (R : List (Nat × Int)) (z : Nat),
      (∀ e ∈ R, 0 < e.2) →
      ∃ R' z', beamStep (R ++ List.replicate z ((0 : Nat), (0 : Int))) c
          = R' ++ List.replicate z' ((0 : Nat), (0 : Int)) ∧
        (∀ e ∈ R', e ∈ R ∨ e = c) ∧ (∀ e ∈ R', 0 < e.2) ∧ z' ≤ z - 1 := by
  intro R
  induction R with
  | nil =>
      intro z hR
      cases z with
      | zero =>
          refine ⟨[], 0, ?_, by simp, by simp, by omega⟩
          simp [beamStep]
      | succ z1 =>
          -- b = (0,0) :: replicate z1; c.2 > 0 → c :: (replicate z1).dropLast
          refine ⟨[c], z1 - 1, ?_, by simp, by simpa using hc, by omega⟩
          simp only [List.nil_append, List.replicate_succ, beamStep, hc, if_pos]
          rw [List.dropLast_replicate]
          simp
  | cons e R1 ih =>
      intro z hR
      by_cases hce : c.2 > e.2
      · -- overwrite head slot, drop last
        cases z with
        | zero =>
            refine ⟨c :: (R1.dropLast), 0, ?_, ?_, ?_, by omega⟩
            · simp only [beamStep, List.cons_append, List.nil_append,
                List.replicate_zero, List.append_nil, if_pos hce]
              simp
            · intro x hx
              rcases List.mem_cons.mp hx with h | h
              · exact Or.inr h
              · exact Or.inl (List.mem_cons_of_mem _ (List.dropLast_sublist _ |>.mem h))
            · intro x hx
              rcases List.mem_cons.mp hx with h | h
              · rw [h]; exact hc
              · exact hR _ (List.mem_cons_of_mem _ (List.dropLast_sublist _ |>.mem h))
        | succ z1 =>
            refine ⟨c :: R1, z1, ?_, ?_, ?_, by omega⟩
            · simp only [beamStep, List.cons_append, if_pos hce]
              congr 1
              simp
            · intro x hx
              rcases List.mem_cons.mp hx with h | h
              · exact Or.inr h
              · exact Or.inl (List.mem_cons_of_mem _ h)
            · intro x hx
              rcases List.mem_cons.mp hx with h | h
              · rw [h]; exact hc
              · exact hR _ (List.mem_cons_of_mem _ h)
      · -- keep head, recurse
        obtain ⟨R', z', heq, hmem, hpos, hz⟩ :=
          ih z (fun x hx => hR _ (List.mem_cons_of_mem _ hx))
        refine ⟨e :: R', z', ?_, ?_, ?_, hz⟩
        · simp only [beamStep, List.cons_append, if_neg hce]
          simp only [List.append_eq] at heq ⊢
          rw [heq]
        · intro x hx
          rcases List.mem_cons.mp hx with h | h
          · exact Or.inl (by rw [h]; exact List.mem_cons_self _ _)
          · rcases hmem _ h with h2 | h2
            · exact Or.inl (List.mem_cons_of_mem _ h2)
            · exact Or.inr h2
        · intro x hx
          rcases List.mem_cons.mp hx with h | h
          · rw [h]; exact hR _ (List.mem_cons_self _ _)
          · exact hpos _ h

theorem beamFold_struc (CS : List (Nat × Int)) :
    ∀ (cs : List (Nat × Int)) (R : List (Nat × Int)) (z : Nat),
      (∀ c ∈ cs, c ∈ CS ∧ 0 < c.2) →
      (∀ e ∈ R, e ∈ CS ∧ 0 < e.2) →
      ∃ R' z', cs.foldl beamStep (R ++ List.replicate z ((0 : Nat), (0 : Int)))
          = R' ++ List.replicate z' ((0 : Nat), (0 : Int)) ∧
        (∀ e ∈ R', e ∈ CS ∧ 0 < e.2) ∧ z' ≤ z - cs.length := by
  intro cs
  induction cs with
  | nil =>
      intro R z hcs hR
      exact ⟨R, z, rfl, hR, by simp⟩
  | cons c cs1 ih =>
      intro R z hcs hR
      obtain ⟨hcCS, hc⟩ := hcs c (List.mem_cons_self _ _)
      obtain ⟨R1, z1, heq, hmem1, hpos1, hz1⟩ :=
        beamStep_struc c hc R z (fun e he => (hR e he).2)
      have hR1 : ∀ e ∈ R1, e ∈ CS ∧ 0 < e.2 := by
        intro e he
        rcases hmem1 e he with h | h
        · exact ⟨(hR e h).1, hpos1 e he⟩
        · rw [h]; exact ⟨hcCS, hc⟩
      obtain ⟨R2, z2, heq2, hmem2, hz2⟩ :=
        ih R1 z1 (fun x hx => hcs x (List.mem_cons_of_mem _ hx)) hR1
      refine ⟨R2, z2, ?_, hmem2, by simp only [List.length_cons]; omega⟩
      rw [List.foldl_cons, heq, heq2]

theorem foldl_beamStep_ne_nil (cs : List (Nat × Int)) :
    ∀ b, b ≠ [] → cs.foldl beamStep b ≠ [] := by
  induction cs with
  | nil => intro b hb; exact hb
  | cons c cs1 ih =>
      intro b hb
      exact ih _ (beamStep_ne_nil b c hb)

theorem beamScan_mem (pscore : Nat → Nat) (rout : Routine)
    (schedule : List Routine) (k : Nat)
    (hk : k ≤ (candScan pscore rout schedule).length)
    (hpos : ∀ c ∈ candScan pscore rout schedule, 0 < c.2) :
    (∀ e ∈ beamScan pscore rout schedule k, e ∈ candScan pscore rout schedule) ∧
    (0 < k → beamScan pscore rout schedule k ≠ []) := by
  constructor
  · obtain ⟨R', z', heq, hmem, hz⟩ :=
      beamFold_struc (candScan pscore rout schedule)
        (candScan pscore rout schedule) [] k
        (fun c hc => ⟨hc, hpos c hc⟩) (by simp)
    have hz0 : z' = 0 := by omega
    intro e he
    rw [beamScan] at he
    rw [List.nil_append] at heq
    rw [heq, hz0] at he
    simp only [List.replicate_zero, List.append_nil] at he
    exact (hmem e he).1
  · intro hk0
    rw [beamScan]
    apply foldl_beamStep_ne_nil
    intro hcon
    have := congrArg List.length hcon
    simp at this
    omega

theorem filterMapIfLength {α β : Type} (P : α → Prop) [DecidablePred P]
    (g : α → β) (l : List α) :
    (l.filterMap (fun i => if P i then some (g i) else none)).length
      = (l.filter (fun i => decide (P i))).length := by
  induction l with
  | nil => simp
  | cons x xs ih =>
      by_cases hx : P x
      · simp only [List.filterMap_cons, List.filter_cons, if_pos hx,
          decide_eq_true_eq]
        simp only [List.length_cons]
        omega
      · simp only [List.filterMap_cons, List.filter_cons, if_neg hx,
          decide_eq_true_eq]
        exact ih

theorem rangeGetDFilterLength {α : Type} (pr : α → Bool) (d : α) (l : List α) :
    ((List.range l.length).filter (fun i => pr (l.getD i d))).length
      = (l.filter pr).length := by
  induction l using List.reverseRecOn with
  | nil => simp
  | append_singleton ys y ih =>
      rw [List.length_append, List.length_singleton, List.range_succ,
        List.filter_append, List.filter_append, List.length_append,
        List.length_append]
      have h1 : (List.range ys.length).filter
          (fun i => pr ((ys ++ [y]).getD i d))
          = (List.range ys.length).filter (fun i => pr (ys.getD i d)) := by
        apply List.filter_congr
        intro i hi
        have hilt : i < ys.length := List.mem_range.mp hi
        have hilt2 : i < (ys ++ [y]).length := by
          rw [List.length_append, List.length_singleton]; omega
        rw [List.getD_eq_getElem _ _ hilt2, List.getD_eq_getElem _ _ hilt,
          List.getElem_append_left]
      have h2 : ([ys.length].filter (fun i => pr ((ys ++ [y]).getD i d))).length
          = ([y].filter pr).length := by
        have hlt : ys.length < (ys ++ [y]).length := by
          rw [List.length_append, List.length_singleton]; omega
        simp only [List.filter_cons, List.filter_nil,
          List.getD_eq_getElem _ _ hlt, List.getElem_concat_length]
        split_ifs <;> simp
      rw [h1, ih, h2]

theorem candScan_length (pscore : Nat → Nat) (rout : Routine)
    (schedule : List Routine) :
    (candScan pscore rout schedule).length = countEmpty schedule := by
  rw [candScan, countEmpty,
    filterMapIfLength (fun i => (schedule.getD i emptyRoutine).name = "")
      (fun i => (i, scoreRoutInSched pscore rout i schedule))]
  exact rangeGetDFilterLength (fun r => decide (r.name = "")) emptyRoutine schedule

theorem candScan_mem (pscore : Nat → Nat) (rout : Routine)
    (schedule : List Routine) (e : Nat × Int)
    (he : e ∈ candScan pscore rout schedule) :
    e.1 < schedule.length ∧ (schedule.getD e.1 emptyRoutine).name = "" ∧
    e.2 = scoreRoutInSched pscore rout e.1 schedule := by
  rw [candScan] at he
  obtain ⟨i, hi, hf⟩ := List.mem_filterMap.mp he
  by_cases hname : (schedule.getD i emptyRoutine).name = ""
  · rw [if_pos hname] at hf
    obtain rfl := Option.some.inj hf
    exact ⟨List.mem_range.mp hi, hname, rfl⟩
  · rw [if_neg hname] at hf
    exact absurd hf (Option.noConfusion)

theorem getD_of_ge (l : List Routine) (j : Nat) (hj : l.length ≤ j) :
    l.getD j emptyRoutine = emptyRoutine := by
  rw [List.getD_eq_getElem?_getD, List.getElem?_eq_none hj]
  rfl

theorem score2routines_nonneg (pscore : Nat → Nat) (i0 i1 : Nat)
    (schedule : List Routine) (r0 r1 : Routine)
    (hs : ∀ r ∈ schedule, 0 ≤ r.duration)
    (h0 : 0 ≤ r0.duration) (h1 : 0 ≤ r1.duration) :
    0 ≤ score2routines pscore i0 i1 schedule r0 r1 := by
  by_cases hsp : r0.samePerformers r1 = []
  · rw [score2routines_no_shared pscore i0 i1 schedule r0 r1 hsp]
    have hmax : maxsize = 9223372036854775807 := rfl
    split_ifs <;> omega
  · rw [score2routines_shared pscore i0 i1 schedule r0 r1 hsp]
    have hdur : ∀ j : Nat, 0 ≤ (schedule.getD j emptyRoutine).duration := by
      intro j
      by_cases hj : j < schedule.length
      · exact hs _ (by rw [List.getD_eq_getElem _ _ hj]; exact List.getElem_mem hj)
      · rw [getD_of_ge _ _ (by omega)]
        decide
    have hbase : (0 : Int) ≤ r0.score pscore + r1.score pscore := by
      have := Int.natCast_nonneg ((r0.performers.map pscore).sum)
      have := Int.natCast_nonneg ((r1.performers.map pscore).sum)
      unfold Routine.score
      omega
    have hbetween : (0 : Int) ≤ ((List.range' (i0 + 1) (i1 - (i0 + 1))).map (fun j =>
        let d := (schedule.getD j emptyRoutine).duration
        if d = maxsize then
          Int.fdiv (((((r0.samePerformers r1).map pscore).sum : Nat) : Int) *
            (r0.duration + r1.duration)) 2
        else ((((r0.samePerformers r1).map pscore).sum : Nat) : Int) * d)).sum := by
      apply List.sum_nonneg
      intro x hx
      obtain ⟨j, hj, rfl⟩ := List.mem_map.mp hx
      by_cases hdm : (schedule.getD j emptyRoutine).duration = maxsize
      · simp only [hdm, if_pos]
        exact Int.fdiv_nonneg
          (mul_nonneg (Int.natCast_nonneg _) (by omega)) (by norm_num)
      · simp only [hdm, if_neg, if_false]
        exact mul_nonneg (Int.natCast_nonneg _) (hdur j)
    have hbonus : (0 : Int) ≤ (if adjacent i0 i1 ∧ r0.energy = false ∧ r1.energy = false
        then r0.duration + r1.duration else 0) := by
      split_ifs
      · omega
      · omega
    omega

theorem scoreRoutInSched_pos (pscore : Nat → Nat) (rout : Routine) (pos : Nat)
    (schedule : List Routine)
    (hs : ∀ r ∈ schedule, 0 ≤ r.duration)
    (hr : 0 ≤ rout.duration)
    (hker : ∃ k, ∃ hk : k < schedule.length,
      ¬ (schedule.get ⟨k, hk⟩).name = "" ∧ (schedule.get ⟨k, hk⟩).performers = [])
    (hpos : (schedule.getD pos emptyRoutine).name = "") :
    0 < scoreRoutInSched pscore rout pos schedule := by
  obtain ⟨k, hk, hkname, hkperf⟩ := hker
  have hkd : schedule.getD k emptyRoutine = schedule.get ⟨k, hk⟩ := by
    rw [List.getD_eq_getElem _ _ hk]
    rfl
  have hkp : k ≠ pos := by
    intro hcon
    subst hcon
    rw [hkd] at hpos
    exact hkname hpos
  rw [scoreRoutInSched]
  have hterm : ∀ x ∈ (List.range schedule.length).map (fun i =>
      if i = pos ∨ pyEqFreshEmpty (schedule.getD i emptyRoutine) = true then 0
      else score2routines pscore i pos schedule (schedule.getD i emptyRoutine) rout),
      (0 : Int) ≤ x := by
    intro x hx
    obtain ⟨i, hi, rfl⟩ := List.mem_map.mp hx
    split_ifs with h
    · omega
    · refine score2routines_nonneg pscore i pos schedule _ rout hs ?_ hr
      by_cases hil : i < schedule.length
      · exact hs _ (by rw [List.getD_eq_getElem _ _ hil]; exact List.getElem_mem hil)
      · rw [getD_of_ge _ _ (by omega)]
        decide
  have hkmem : (if k = pos ∨ pyEqFreshEmpty (schedule.getD k emptyRoutine) = true then (0 : Int)
      else score2routines pscore k pos schedule (schedule.getD k emptyRoutine) rout)
      ∈ (List.range schedule.length).map (fun i =>
        if i = pos ∨ pyEqFreshEmpty (schedule.getD i emptyRoutine) = true then 0
        else score2routines pscore i pos schedule (schedule.getD i emptyRoutine) rout) :=
    List.mem_map_of_mem _ (List.mem_range.mpr hk)
  have hkval : (if k = pos ∨ pyEqFreshEmpty (schedule.getD k emptyRoutine) = true then (0 : Int)
      else score2routines pscore k pos schedule (schedule.getD k emptyRoutine) rout)
      = score2routines pscore k pos schedule (schedule.getD k emptyRoutine) rout := by
    rw [if_neg]
    simp only [pyEqFreshEmpty, not_or]
    exact ⟨hkp, by simp⟩
  have hksame : (schedule.getD k emptyRoutine).samePerformers rout = [] := by
    rw [hkd]
    unfold Routine.samePerformers
    rw [hkperf]
    rfl
  have hkbig : score2routines pscore k pos schedule (schedule.getD k emptyRoutine) rout
      = maxsize - (if adjacent k pos ∧ (schedule.getD k emptyRoutine).energy = false
          ∧ rout.energy = false then 1 else 0) :=
    score2routines_no_shared pscore k pos schedule _ rout hksame
  have hle := List.single_le_sum hterm _ hkmem
  rw [hkval, hkbig] at hle
  have hmax : maxsize = 9223372036854775807 := rfl
  split_ifs at hle <;> omega

theorem list_decompose {α : Type} (l : List α) (p : Nat) (hp : p < l.length)
    (d : α) : l = l.take p ++ l.getD p d :: l.drop (p + 1) := by
  conv_lhs => rw [← List.take_append_drop p l]
  rw [List.drop_eq_getElem_cons hp, List.getD_eq_getElem _ _ hp]

theorem set_decompose {α : Type} : ∀ (l : List α) (p : Nat), p < l.length →
    ∀ a : α, l.set p a = l.take p ++ a :: l.drop (p + 1)
  | x :: xs, 0, _, a => rfl
  | x :: xs, p + 1, h, a => by
      have ih := set_decompose xs p (by simpa using h) a
      simp only [List.set_cons_succ, List.take_succ_cons, List.drop_succ_cons,
        List.cons_append]
      rw [ih]

theorem countEmpty_append_cons (A B : List Routine) (x : Routine) :
    countEmpty (A ++ x :: B)
      = countEmpty A + (if x.name = "" then 1 else 0) + countEmpty B := by
  simp only [countEmpty, List.filter_append, List.filter_cons, List.length_append]
  by_cases h : x.name = ""
  · simp [h]
    omega
  · simp [h]

theorem nonEmptyIds_append_cons (A B : List Routine) (x : Routine) :
    nonEmptyIds (A ++ x :: B)
      = nonEmptyIds A ++ (if x.name = "" then ([] : List Nat) else [x.id])
          ++ nonEmptyIds B := by
  simp only [nonEmptyIds, List.filter_append, List.filter_cons, List.map_append]
  by_cases h : x.name = "" <;> simp [h]

theorem countEmpty_set (l : List Routine) (p : Nat) (hp : p < l.length)
    (r : Routine) (hpe : (l.getD p emptyRoutine).name = "")
    (hr : ¬ r.name = "") :
    countEmpty (l.set p r) + 1 = countEmpty l := by
  conv_lhs => rw [set_decompose l p hp r]
  conv_rhs => rw [list_decompose l p hp emptyRoutine]
  rw [countEmpty_append_cons, countEmpty_append_cons, if_neg hr, if_pos hpe]
  omega

theorem nonEmptyIds_set_perm (l : List Routine) (p : Nat) (hp : p < l.length)
    (r : Routine) (hpe : (l.getD p emptyRoutine).name = "")
    (hr : ¬ r.name = "") :
    (nonEmptyIds (l.set p r)).Perm (r.id :: nonEmptyIds l) := by
  have h1 : nonEmptyIds (l.set p r)
      = nonEmptyIds (l.take p) ++ r.id :: nonEmptyIds (l.drop (p + 1)) := by
    rw [set_decompose l p hp r, nonEmptyIds_append_cons, if_neg hr]
    simp
  have h2 : nonEmptyIds l
      = nonEmptyIds (l.take p) ++ nonEmptyIds (l.drop (p + 1)) := by
    conv_lhs => rw [list_decompose l p hp emptyRoutine]
    rw [nonEmptyIds_append_cons, if_pos hpe]
    simp
  rw [h1, h2]
  exact List.perm_middle

theorem schedInv_place (env : Env) (henv : envOk env)
    (schedule : List Routine) (unused : List Nat)
    (hinv : schedInv env schedule unused)
    (ind : Nat) (hind : ind < unused.length)
    (p : Nat) (hp : p < schedule.length)
    (hpe : (schedule.getD p emptyRoutine).name = "") :
    schedInv env
      (placeAt schedule (env.routines.getD (unused.getD ind 0) emptyRoutine) p)
      (unused.take ind ++ unused.drop (ind + 1)) := by
  obtain ⟨hcount, hker, hdur, hub, hnd⟩ := hinv
  have humem : unused.getD ind 0 ∈ unused := by
    rw [List.getD_eq_getElem _ _ hind]; exact List.getElem_mem hind
  have hulen : unused.getD ind 0 < env.routines.length := hub _ humem
  have hroutmem : env.routines.getD (unused.getD ind 0) emptyRoutine ∈ env.routines := by
    rw [List.getD_eq_getElem _ _ hulen]; exact List.getElem_mem hulen
  have hroutname : ¬ (env.routines.getD (unused.getD ind 0) emptyRoutine).name = "" :=
    (henv.1 _ hroutmem).1
  have hroutdur : 0 ≤ (env.routines.getD (unused.getD ind 0) emptyRoutine).duration :=
    (henv.1 _ hroutmem).2
  refine ⟨?_, ?_, ?_, ?_, ?_⟩
  · -- countEmpty = length of new unused
    rw [placeAt]
    have hce := countEmpty_set schedule p hp _ hpe hroutname
    rw [List.length_append, List.length_take, List.length_drop]
    omega
  · -- the intermission-like entry survives
    obtain ⟨k, hk, hkname, hkperf⟩ := hker
    have hkp : p ≠ k := by
      intro hcon
      subst hcon
      rw [List.getD_eq_getElem _ _ hp] at hpe
      rw [List.get_eq_getElem] at hkname
      exact hkname hpe
    have hk2 : k < (placeAt schedule
        (env.routines.getD (unused.getD ind 0) emptyRoutine) p).length := by
      rw [placeAt, List.length_set]; exact hk
    refine ⟨k, hk2, ?_, ?_⟩
    · rw [List.get_eq_getElem]
      show ¬ (getElem (schedule.set p _) k hk2).name = ""
      rw [List.getElem_set_ne hkp]
      rw [List.get_eq_getElem] at hkname
      exact hkname
    · rw [List.get_eq_getElem]
      show (getElem (schedule.set p _) k hk2).performers = []
      rw [List.getElem_set_ne hkp]
      rw [List.get_eq_getElem] at hkperf
      exact hkperf
  · -- durations
    intro r hr
    rcases List.mem_or_eq_of_mem_set hr with h | h
    · exact hdur _ h
    · rw [h]; exact hroutdur
  · -- unused indices in range
    intro x hx
    rcases List.mem_append.mp hx with h | h
    · exact hub _ (List.take_subset _ _ h)
    · exact hub _ (List.drop_subset _ _ h)
  · -- id distinctness
    have hperm1 : (nonEmptyIds (placeAt schedule
          (env.routines.getD (unused.getD ind 0) emptyRoutine) p)).Perm
        ((env.routines.getD (unused.getD ind 0) emptyRoutine).id
          :: nonEmptyIds schedule) := by
      rw [placeAt]
      exact nonEmptyIds_set_perm schedule p hp _ hpe hroutname
    have hdecu : unused = unused.take ind ++ unused.getD ind 0 :: unused.drop (ind + 1) :=
      list_decompose unused ind hind 0
    have hold : (nonEmptyIds schedule ++ unused.map
          (fun v => (env.routines.getD v emptyRoutine).id)).Perm
        ((env.routines.getD (unused.getD ind 0) emptyRoutine).id ::
          (nonEmptyIds schedule ++ ((unused.take ind ++ unused.drop (ind + 1)).map
            (fun v => (env.routines.getD v emptyRoutine).id)))) := by
      conv_lhs => rw [hdecu]
      simp only [List.map_append, List.map_cons]
      have hmid := @List.perm_middle Nat
        ((env.routines.getD (unused.getD ind 0) emptyRoutine).id)
        (nonEmptyIds schedule ++
          (unused.take ind).map (fun v => (env.routines.getD v emptyRoutine).id))
        ((unused.drop (ind + 1)).map (fun v => (env.routines.getD v emptyRoutine).id))
      simpa [List.append_assoc] using hmid
    have hnew := hperm1.append_right ((unused.take ind ++ unused.drop (ind + 1)).map
      (fun v => (env.routines.getD v emptyRoutine).id))
    rw [List.cons_append] at hnew
    exact ((hnew.trans hold.symm).symm).nodup hnd

theorem firstArgmaxAux_lt (f : Nat → Int) :
    ∀ (xs : List Nat) (cur best : Nat) (v : Int), best < cur →
      firstArgmaxAux f xs cur best v < cur + xs.length := by
  intro xs
  induction xs with
  | nil =>
      intro cur best v h
      simpa [firstArgmaxAux] using Nat.lt_of_lt_of_le h (Nat.le_refl _)
  | cons x xs1 ih =>
      intro cur best v h
      rw [firstArgmaxAux]
      split_ifs
      · have := ih (cur + 1) cur (f x) (Nat.lt_succ_self _)
        simpa [Nat.add_assoc, Nat.add_comm, Nat.add_left_comm] using this
      · have := ih (cur + 1) best v (Nat.lt_succ_of_lt h)
        simpa [Nat.add_assoc, Nat.add_comm, Nat.add_left_comm] using this

theorem firstArgmax_lt (f : Nat → Int) (l : List Nat) (ind : Nat)
    (h : firstArgmax f l = some ind) : ind < l.length := by
  cases l with
  | nil => exact absurd h (by simp [firstArgmax])
  | cons x xs =>
      rw [firstArgmax] at h
      obtain rfl := Option.some.inj h
      have := firstArgmaxAux_lt f xs 1 0 (f x) Nat.one_pos
      simp only [List.length_cons]
      omega

theorem seqOption_mem {α : Type} :
    ∀ (xs : List (Option α)) (ys : List α), seqOption xs = some ys →
      ∀ y ∈ ys, some y ∈ xs := by
  intro xs
  induction xs with
  | nil =>
      intro ys h y hy
      rw [seqOption] at h
      obtain rfl := Option.some.inj h
      exact absurd hy (List.not_mem_nil _)
  | cons o xs1 ih =>
      intro ys h y hy
      match o, h with
      | some a, h =>
          rw [seqOption] at h
          cases hrec : seqOption xs1 with
          | none =>
              rw [hrec] at h
              exact absurd h (by intro hc; exact Option.noConfusion hc)
          | some rest =>
              rw [hrec] at h
              obtain rfl := Option.some.inj (show some (a :: rest) = some ys from h)
              rcases List.mem_cons.mp hy with rfl | hmem
              · exact List.mem_cons_self _ _
              · exact List.mem_cons_of_mem _ (ih rest hrec y hmem)

theorem seqOption_length {α : Type} :
    ∀ (xs : List (Option α)) (ys : List α), seqOption xs = some ys →
      ys.length = xs.length := by
  intro xs
  induction xs with
  | nil =>
      intro ys h
      rw [seqOption] at h
      obtain rfl := Option.some.inj h
      rfl
  | cons o xs1 ih =>
      intro ys h
      match o, h with
      | some a, h =>
          rw [seqOption] at h
          cases hrec : seqOption xs1 with
          | none =>
              rw [hrec] at h
              exact absurd h (by intro hc; exact Option.noConfusion hc)
          | some rest =>
              rw [hrec] at h
              obtain rfl := Option.some.inj (show some (a :: rest) = some ys from h)
              simp [ih rest hrec]

theorem foldlMaxMem {α : Type} :
    ∀ (rest : List (α × Int)) (init : α × Int),
      rest.foldl (fun b e => if e.2 > b.2 then (e.1, e.2) else b) init
        ∈ init :: rest := by
  intro rest
  induction rest with
  | nil => intro init; exact List.mem_cons_self _ _
  | cons e rest1 ih =>
      intro init
      rw [List.foldl_cons]
      split_ifs with h
      · rcases List.mem_cons.mp (ih (e.1, e.2)) with h2 | h2
        · rw [h2]
          exact List.mem_cons_of_mem _ (List.mem_cons_self _ _)
        · exact List.mem_cons_of_mem _ (List.mem_cons_of_mem _ h2)
      · rcases List.mem_cons.mp (ih init) with h2 | h2
        · rw [h2]; exact List.mem_cons_self _ _
        · exact List.mem_cons_of_mem _ (List.mem_cons_of_mem _ h2)

theorem pyMaxByKeyed_mem {α : Type} (l : List (α × Int)) (a : α)
    (h : pyMaxByKeyed l = some a) : ∃ k, (a, k) ∈ l := by
  match l, h with
  | (x, k0) :: rest, h =>
      rw [pyMaxByKeyed] at h
      obtain rfl := Option.some.inj h
      have hm := foldlMaxMem rest (x, k0)
      refine ⟨(rest.foldl (fun b e => if e.2 > b.2 then (e.1, e.2) else b) (x, k0)).2, ?_⟩
      simpa using hm

theorem sortHelperFuel_complete (env : Env) (henv : envOk env) :
    ∀ (fuel : Nat) (schedule : List Routine) (unused : List Nat),
      schedInv env schedule unused →
      ∀ out, sortHelperFuel env fuel schedule unused = some out →
        out.length = schedule.length ∧ (∀ r ∈ out, ¬ r.name = "") ∧
        (out.map Routine.id).Nodup := by
  intro fuel
  induction fuel with
  | zero =>
      intro schedule unused hinv out h
      rw [sortHelperFuel] at h
      exact absurd h (by intro hc; exact Option.noConfusion hc)
  | succ fuel ih =>
      intro schedule unused hinv out h
      by_cases hu : unused = []
      · rw [sortHelperFuel, if_pos hu] at h
        obtain rfl := Option.some.inj h
        obtain ⟨hcount, _, _, _, hnd⟩ := hinv
        rw [hu] at hcount
        have hallname : ∀ r ∈ schedule, ¬ r.name = "" := by
          intro r hr
          have hfil : (schedule.filter (fun r => r.name = "")).length = 0 := hcount
          rw [List.length_eq_zero] at hfil
          intro hname
          have hrf : r ∈ schedule.filter (fun r => r.name = "") :=
            List.mem_filter.mpr ⟨hr, by simpa using hname⟩
          rw [hfil] at hrf
          exact List.not_mem_nil _ hrf
        refine ⟨rfl, hallname, ?_⟩
        rw [hu] at hnd
        simp only [List.map_nil, List.append_nil] at hnd
        have hsame : nonEmptyIds schedule = schedule.map Routine.id := by
          rw [nonEmptyIds]
          congr 1
          rw [List.filter_eq_self]
          intro r hr
          simpa using hallname r hr
        rw [hsame] at hnd
        exact hnd
      · cases hfa : firstArgmax
            (fun x => (env.routines.getD x emptyRoutine).score env.pscore) unused with
        | none =>
            rw [sortHelperFuel, if_neg hu, hfa] at h
            exact absurd h (by intro hc; exact Option.noConfusion hc)
        | some ind =>
            rw [sortHelperFuel, if_neg hu, hfa] at h
            dsimp only [] at h
            have hind : ind < unused.length := firstArgmax_lt _ _ _ hfa
            -- facts about the selected routine
            have humem : unused.getD ind 0 ∈ unused := by
              rw [List.getD_eq_getElem _ _ hind]; exact List.getElem_mem hind
            have hulen : unused.getD ind 0 < env.routines.length := hinv.2.2.2.1 _ humem
            have hroutmem :
                env.routines.getD (unused.getD ind 0) emptyRoutine ∈ env.routines := by
              rw [List.getD_eq_getElem _ _ hulen]; exact List.getElem_mem hulen
            have hroutname :
                ¬ (env.routines.getD (unused.getD ind 0) emptyRoutine).name = "" :=
              (henv.1 _ hroutmem).1
            have hroutdur :
                0 ≤ (env.routines.getD (unused.getD ind 0) emptyRoutine).duration :=
              (henv.1 _ hroutmem).2
            -- candidate facts
            have hclen : min 3 unused.length
                ≤ (candScan env.pscore
                    (env.routines.getD (unused.getD ind 0) emptyRoutine) schedule).length := by
              rw [candScan_length]
              rw [hinv.1]
              exact Nat.min_le_right _ _
            have hcpos : ∀ c ∈ candScan env.pscore
                (env.routines.getD (unused.getD ind 0) emptyRoutine) schedule, 0 < c.2 := by
              intro c hc
              obtain ⟨hc1, hc2, hc3⟩ := candScan_mem _ _ _ _ hc
              rw [hc3]
              exact scoreRoutInSched_pos _ _ _ _ hinv.2.2.1 hroutdur hinv.2.1 hc2
            obtain ⟨hbmem, hbne⟩ := beamScan_mem env.pscore
              (env.routines.getD (unused.getD ind 0) emptyRoutine) schedule
              (min 3 unused.length) hclen hcpos
            -- reduce the two matches in h
            cases hseq : seqOption ((beamScan env.pscore
                (env.routines.getD (unused.getD ind 0) emptyRoutine) schedule
                (min 3 unused.length)).map (fun pi =>
                  sortHelperFuel env fuel (placeAt schedule
                    (env.routines.getD (unused.getD ind 0) emptyRoutine) pi.1)
                    (unused.take ind ++ unused.drop (ind + 1)))) with
            | none =>
                rw [hseq] at h
                exact absurd h (by intro hc; exact Option.noConfusion hc)
            | some scheds =>
                rw [hseq] at h
                dsimp only [] at h
                cases hkeys : seqOption (scheds.map (fun s =>
                    scoreSchedule env.perfViews s)) with
                | none =>
                    rw [hkeys] at h
                    exact absurd h (by intro hc; exact Option.noConfusion hc)
                | some keys =>
                    rw [hkeys] at h
                    dsimp only [] at h
                    obtain ⟨kk, hzip⟩ := pyMaxByKeyed_mem _ _ h
                    have houts : out ∈ scheds := (List.of_mem_zip hzip).1
                    have hsome := seqOption_mem _ _ hseq _ houts
                    obtain ⟨pi, hpibeam, hpieq⟩ := List.mem_map.mp hsome
                    have hpc := hbmem _ hpibeam
                    obtain ⟨hp1, hp2, _⟩ := candScan_mem _ _ _ _ hpc
                    have hinv2 := schedInv_place env henv schedule unused hinv
                      ind hind pi.1 hp1 hp2
                    obtain ⟨hl, hn, hmi⟩ := ih _ _ hinv2 out hpieq
                    refine ⟨?_, hn, hmi⟩
                    rw [hl, placeAt, List.length_set]

theorem interLoop_exit (occ : Int → Bool) (len : Nat) :
    ∀ (fuel : Nat) (io : Int) (counter : Nat) (res : Int),
      interLoop occ len fuel io counter = some res →
      ¬(0 ≤ res ∧ res < (len : Int) ∧ occ res = true) := by
  intro fuel
  induction fuel with
  | zero =>
      intro io counter res h
      rw [interLoop] at h
      exact absurd h (by intro hc; exact Option.noConfusion hc)
  | succ fuel ih =>
      intro io counter res h
      rw [interLoop] at h
      by_cases hcond : 0 ≤ io ∧ io < (len : Int) ∧ occ io = true
      · rw [if_pos hcond] at h
        exact ih _ _ _ h
      · rw [if_neg hcond] at h
        obtain rfl := Option.some.inj h
        exact hcond

theorem codeInterOrder_eq_firstExit (occ : Int → Bool) (len : Nat) :
    codeInterOrder occ len
      = some (codeProbe ((len / 2 : Nat) : Int) (firstExit occ len)) := by
  have hstart : ((len / 2 : Nat) : Int) = codeProbe ((len / 2 : Nat) : Int) 0 := by
    simp [codeProbe]
  have hbound : firstExit occ len < 0 + (2 * len + 4) := by
    have hexit : probeExits occ len ((len / 2 : Nat) : Int) (2 * len) := by
      intro h
      have hc : codeProbe ((len / 2 : Nat) : Int) (2 * len)
          = ((len / 2 : Nat) : Int) + (len : Int) := by
        unfold codeProbe
        have h0 : 2 * len % 2 = 0 := by omega
        have h2 : (2 * len) / 2 = len := by omega
        rw [if_pos h0, h2]
      rw [hc] at h
      obtain ⟨hx1, hx2, _⟩ := h
      omega
    have heq : firstExit occ len ≤ 2 * len := by
      unfold firstExit
      exact Nat.find_min' _ hexit
    omega
  have := interLoop_to_firstExit occ len (2 * len + 4) 0
    (fun b hb => absurd hb (Nat.not_lt_zero b)) hbound
  rw [codeInterOrder, hstart]
  exact this

theorem codeInterOrder_nonneg (occ : Int → Bool) (len : Nat) (res : Int)
    (h : codeInterOrder occ len = some res) : 0 ≤ res := by
  rw [codeInterOrder_eq_firstExit] at h
  obtain rfl := Option.some.inj h.symm
  have hmin : ∀ b, b < firstExit occ len →
      ¬ probeExits occ len ((len / 2 : Nat) : Int) b :=
    fun b hb => Nat.find_min _ hb
  by_contra hneg
  push_neg at hneg
  by_cases hm : firstExit occ len % 2 = 0
  · rw [codeProbe, if_pos hm] at hneg
    omega
  · rw [codeProbe, if_neg hm] at hneg
    by_cases h1 : firstExit occ len = 1
    · rw [h1] at hneg
      norm_num at hneg
      omega
    · have h3 : 3 ≤ firstExit occ len := by omega
      have hb := hmin (firstExit occ len - 1) (by omega)
      rw [probeExits, not_not] at hb
      obtain ⟨hb1, hb2, _⟩ := hb
      have hbm : (firstExit occ len - 1) % 2 = 0 := by omega
      rw [codeProbe, if_pos hbm] at hb2
      have harith : (firstExit occ len - 1) / 2 = (firstExit occ len - 1) / 2 := rfl
      omega

theorem nodupMove (A B C A2 : List Nat) (x : Nat)
    (hperm : A2.Perm (x :: A))
    (hnd : ((A ++ B) ++ x :: C).Nodup) : ((A2 ++ B) ++ C).Nodup := by
  have h1 : ((A ++ B) ++ x :: C).Perm (x :: ((A ++ B) ++ C)) := List.perm_middle
  have h2 : ((A2 ++ B) ++ C).Perm ((x :: (A ++ B)) ++ C) :=
    (hperm.append_right B).append_right C
  have h3 : ((x :: (A ++ B)) ++ C) = x :: ((A ++ B) ++ C) := by
    rw [List.cons_append]
  rw [h3] at h2
  exact (h2.symm).nodup (h1.nodup hnd)

theorem placeFixed_inv (routines : List Routine)
    (h6 : ((routines.length : Int) + 1) < maxsize) :
    ∀ (pend : List (Nat × Routine)) (sched : List Routine) (un : List Nat),
    sched.length = routines.length + 1 →
    (∀ q, ∀ hq : q < sched.length, sched[q] = emptyRoutine ∨
      (¬ sched[q].name = "" ∧ 0 ≤ sched[q].duration ∧ sched[q].order = (q : Int))) →
    countEmpty sched = un.length + pend.length + 1 →
    (∀ i ∈ un, i < routines.length) →
    (∀ ir ∈ pend, ir.1 < routines.length ∧ routines.getD ir.1 emptyRoutine = ir.2 ∧
      ¬ ir.2.name = "" ∧ 0 ≤ ir.2.duration ∧
      ((0 ≤ ir.2.order ∧ ir.2.order < (routines.length : Int) + 1) ∨
        ir.2.order = maxsize)) →
    ((nonEmptyIds sched ++ un.map (fun i => (routines.getD i emptyRoutine).id))
      ++ pend.map (fun ir => ir.2.id)).Nodup →
    (∀ x ∈ nonEmptyIds sched, x ∈ routines.map Routine.id) →
    ∀ s1 u1, placeFixed pend sched un = .ok (s1, u1) →
    s1.length = routines.length + 1 ∧
    (∀ q, ∀ hq : q < s1.length, s1[q] = emptyRoutine ∨
      (¬ s1[q].name = "" ∧ 0 ≤ s1[q].duration ∧ s1[q].order = (q : Int))) ∧
    countEmpty s1 = u1.length + 1 ∧
    (∀ i ∈ u1, i < routines.length) ∧
    (nonEmptyIds s1 ++ u1.map (fun i => (routines.getD i emptyRoutine).id)).Nodup ∧
    (∀ x ∈ nonEmptyIds s1, x ∈ routines.map Routine.id) := by
  intro pend
  induction pend with
  | nil =>
      intro sched un hlen hent hcount hun hpend hnd hsub s1 u1 hpf
      rw [placeFixed] at hpf
      obtain ⟨rfl, rfl⟩ : sched = s1 ∧ un = u1 := by
        have := Except.ok.inj hpf
        exact ⟨congrArg Prod.fst this, congrArg Prod.snd this⟩
      simp only [List.map_nil, List.append_nil] at hnd
      simp only [List.length_nil] at hcount
      exact ⟨hlen, hent, by omega, hun, hnd, hsub⟩
  | cons ir rest ih =>
      intro sched un hlen hent hcount hun hpend hnd hsub s1 u1 hpf
      obtain ⟨i, r⟩ := ir
      obtain ⟨hilt0, hir0, hrname0, hrdur0, hror0⟩ := hpend (i, r) (List.mem_cons_self _ _)
      have hilt : i < routines.length := hilt0
      have hir : routines.getD i emptyRoutine = r := hir0
      have hrname : ¬ r.name = "" := hrname0
      have hrdur : 0 ≤ r.duration := hrdur0
      have hror : (0 ≤ r.order ∧ r.order < (routines.length : Int) + 1) ∨
          r.order = maxsize := hror0
      rw [placeFixed] at hpf
      by_cases hvo : r.order < (sched.length : Int)
      · rw [if_pos hvo] at hpf
        have h0r : 0 ≤ r.order := by
          rcases hror with ⟨hh, _⟩ | hh
          · exact hh
          · exfalso
            rw [hh, hlen] at hvo
            rw [maxsize] at hvo h6
            omega
        have hpy : pyIndex sched.length r.order = some r.order.toNat := by
          rw [pyIndex, if_pos ⟨h0r, hvo⟩]
        rw [hpy] at hpf
        dsimp only [] at hpf
        have hplt : r.order.toNat < sched.length := by omega
        have hpcast : (r.order.toNat : Int) = r.order := Int.toNat_of_nonneg h0r
        by_cases hconf : (sched.getD r.order.toNat emptyRoutine).order = r.order
        · rw [if_pos hconf] at hpf
          exact absurd hpf (by intro hc; exact Except.noConfusion hc)
        · rw [if_neg hconf] at hpf
          have hocc : sched.getD r.order.toNat emptyRoutine = emptyRoutine := by
            rw [List.getD_eq_getElem _ _ hplt] at hconf ⊢
            rcases hent r.order.toNat hplt with h | ⟨_, _, hord⟩
            · exact h
            · rw [hpcast] at hord
              exact absurd hord hconf
          have hoccname : (sched.getD r.order.toNat emptyRoutine).name = "" := by
            rw [hocc]
            rfl
          -- new invariants for the recursive call
          have hlen2 : (sched.set r.order.toNat r).length = routines.length + 1 := by
            rw [List.length_set]; exact hlen
          have hent2 : ∀ q, ∀ hq : q < (sched.set r.order.toNat r).length,
              (sched.set r.order.toNat r)[q] = emptyRoutine ∨
              (¬ (sched.set r.order.toNat r)[q].name = "" ∧
                0 ≤ (sched.set r.order.toNat r)[q].duration ∧
                (sched.set r.order.toNat r)[q].order = (q : Int)) := by
            intro q hq
            have hq2 : q < sched.length := by rw [List.length_set] at hq; exact hq
            by_cases hqp : r.order.toNat = q
            · subst hqp
              rw [List.getElem_set_self]
              exact Or.inr ⟨hrname, hrdur, hpcast.symm⟩
            · rw [List.getElem_set_ne hqp]
              exact hent q hq2
          have hcount2 : countEmpty (sched.set r.order.toNat r)
              = un.length + rest.length + 1 := by
            have := countEmpty_set sched r.order.toNat hplt r hoccname hrname
            simp only [List.length_cons] at hcount
            omega
          have hpend2 : ∀ ir2 ∈ rest, ir2.1 < routines.length ∧
              routines.getD ir2.1 emptyRoutine = ir2.2 ∧
              ¬ ir2.2.name = "" ∧ 0 ≤ ir2.2.duration ∧
              ((0 ≤ ir2.2.order ∧ ir2.2.order < (routines.length : Int) + 1) ∨
                ir2.2.order = maxsize) :=
            fun ir2 h2 => hpend ir2 (List.mem_cons_of_mem _ h2)
          have hperm := nonEmptyIds_set_perm sched r.order.toNat hplt r hoccname hrname
          have hnd2 : ((nonEmptyIds (sched.set r.order.toNat r) ++
              un.map (fun i => (routines.getD i emptyRoutine).id))
              ++ rest.map (fun ir => ir.2.id)).Nodup := by
            refine nodupMove (nonEmptyIds sched)
              (un.map (fun i => (routines.getD i emptyRoutine).id))
              (rest.map (fun ir => ir.2.id))
              (nonEmptyIds (sched.set r.order.toNat r)) r.id hperm ?_
            simpa using hnd
          have hsub2 : ∀ x ∈ nonEmptyIds (sched.set r.order.toNat r),
              x ∈ routines.map Routine.id := by
            intro x hx
            rcases List.mem_cons.mp (hperm.mem_iff.mp hx) with h | h
            · rw [h, ← hir]
              exact List.mem_map_of_mem _ (by
                rw [List.getD_eq_getElem _ _ hilt]
                exact List.getElem_mem hilt)
            · exact hsub _ h
          exact ih (sched.set r.order.toNat r) un hlen2 hent2 hcount2 hun hpend2
            hnd2 hsub2 s1 u1 hpf
      · rw [if_neg hvo] at hpf
        have hcount2 : countEmpty sched = (un ++ [i]).length + rest.length + 1 := by
          simp only [List.length_append, List.length_singleton, List.length_cons,
            List.length_nil] at hcount ⊢
          omega
        have hun2 : ∀ j ∈ un ++ [i], j < routines.length := by
          intro j hj
          rcases List.mem_append.mp hj with h | h
          · exact hun _ h
          · rw [List.mem_singleton.mp h]
            exact hilt
        have hnd2 : ((nonEmptyIds sched ++
            (un ++ [i]).map (fun i => (routines.getD i emptyRoutine).id))
            ++ rest.map (fun ir => ir.2.id)).Nodup := by
          have heq : (nonEmptyIds sched ++
              (un ++ [i]).map (fun i => (routines.getD i emptyRoutine).id))
              ++ rest.map (fun ir => ir.2.id)
              = (nonEmptyIds sched ++
                  un.map (fun i => (routines.getD i emptyRoutine).id))
                ++ ((routines.getD i emptyRoutine).id :: rest.map (fun ir => ir.2.id)) := by
            simp [List.append_assoc]
          rw [heq, hir]
          simpa using hnd
        exact ih sched (un ++ [i]) hlen hent hcount2 hun2
          (fun ir2 h2 => hpend ir2 (List.mem_cons_of_mem _ h2)) hnd2 hsub s1 u1 hpf

theorem countEmpty_replicate (n : Nat) :
    countEmpty (List.replicate n emptyRoutine) = n := by
  rw [countEmpty]
  rw [List.filter_eq_self.mpr]
  · exact List.length_replicate n _
  · intro a ha
    rw [List.eq_of_mem_replicate ha]
    decide

theorem nonEmptyIds_replicate (n : Nat) :
    nonEmptyIds (List.replicate n emptyRoutine) = [] := by
  rw [nonEmptyIds]
  have hf : (List.replicate n emptyRoutine).filter (fun r => ¬ r.name = "") = [] := by
    rw [List.filter_eq_nil_iff]
    intro a ha
    rw [List.eq_of_mem_replicate ha]
    decide
  rw [hf]
  rfl

theorem enum_map_snd_id (routines : List Routine) :
    routines.enum.map (fun ir => ir.2.id) = routines.map Routine.id := by
  have h1 : routines.enum.map (fun ir => ir.2.id)
      = (routines.enum.map Prod.snd).map Routine.id := by
    rw [List.map_map]
    rfl
  rw [h1, List.enum_map_snd]

theorem mkScheduler_inv (env : Env) (interLength : Int) (interId : Nat)
    (h1 : ∀ r ∈ env.routines, ¬ r.name = "" ∧ 0 ≤ r.duration ∧
      ((0 ≤ r.order ∧ r.order < (env.routines.length : Int) + 1) ∨ r.order = maxsize))
    (h2 : (env.routines.map Routine.id).Nodup)
    (h3 : ∀ r ∈ env.routines, ¬ r.id = interId)
    (h6 : ((env.routines.length : Int) + 1) < maxsize)
    (h7 : 0 ≤ interLength)
    (s : List Routine) (u : List Nat)
    (hok : mkScheduler env.routines interLength interId none = .ok (s, u)) :
    schedInv env s u ∧ s.length = env.routines.length + 1 := by
  rw [mkScheduler] at hok
  cases hpf : placeFixed env.routines.enum
      (List.replicate (env.routines.length + 1) emptyRoutine) [] with
  | error e =>
      rw [hpf] at hok
      exact absurd hok (by intro hc; exact Except.noConfusion hc)
  | ok su =>
      obtain ⟨sched1, unused⟩ := su
      rw [hpf] at hok
      dsimp only [] at hok
      -- invariants established by placeFixed
      have hpost := placeFixed_inv env.routines h6 env.routines.enum
        (List.replicate (env.routines.length + 1) emptyRoutine) []
        (by rw [List.length_replicate])
        (by
          intro q hq
          rw [List.getElem_replicate]
          exact Or.inl rfl)
        (by
          rw [countEmpty_replicate, List.length_nil, List.enum_length]
          omega)
        (by intro i hi; exact absurd hi (List.not_mem_nil _))
        (by
          intro ir hir
          have hget : env.routines[ir.1]? = some ir.2 := by
            rw [← List.mem_enum_iff_getElem?]
            exact hir
          have hlt : ir.1 < env.routines.length := by
            by_contra hge
            rw [List.getElem?_eq_none (by omega)] at hget
            exact Option.noConfusion hget
          have hmem : ir.2 ∈ env.routines := by
            have hg2 := List.getElem?_eq_getElem hlt
            rw [hg2] at hget
            have heq : ir.2 = env.routines[ir.1] := (Option.some.inj hget).symm
            rw [heq]
            exact List.getElem_mem hlt
          refine ⟨hlt, ?_, (h1 _ hmem).1, (h1 _ hmem).2.1, (h1 _ hmem).2.2⟩
          rw [List.getD_eq_getElem _ _ hlt]
          have hg2 := List.getElem?_eq_getElem hlt
          rw [hg2] at hget
          exact Option.some.inj hget)
        (by
          rw [nonEmptyIds_replicate, enum_map_snd_id]
          simpa using h2)
        (by
          rw [nonEmptyIds_replicate]
          intro x hx
          exact absurd hx (List.not_mem_nil _))
        sched1 unused hpf
      obtain ⟨plen, pent, pcount, pun, pnd, psub⟩ := hpost
      -- the intermission index
      cases hio : codeInterOrder
          (fun io => !((sched1.getD io.toNat emptyRoutine).order == maxsize))
          sched1.length with
      | none =>
          rw [hio] at hok
          exact absurd hok (by intro hc; exact Except.noConfusion hc)
      | some io =>
          rw [hio] at hok
          dsimp only [] at hok
          have hio0 : 0 ≤ io := codeInterOrder_nonneg _ _ _ hio
          have hexit := interLoop_exit _ _ _ _ _ _ hio
          by_cases hiolen : io < (sched1.length : Int)
          · have hocc : ¬ ((fun io => !((sched1.getD io.toNat emptyRoutine).order == maxsize)) io) = true := by
              intro hc
              exact hexit ⟨hio0, hiolen, hc⟩
            have hord : (sched1.getD io.toNat emptyRoutine).order = maxsize := by
              simpa using hocc
            have hpy : pyIndex sched1.length io = some io.toNat := by
              rw [pyIndex, if_pos ⟨hio0, hiolen⟩]
            rw [hpy] at hok
            dsimp only [] at hok
            have hinj := Except.ok.inj hok
            have hs : sched1.set io.toNat (mkIntermission interId interLength io) = s :=
              congrArg Prod.fst hinj
            have hu : unused = u := congrArg Prod.snd hinj
            subst hs
            subst hu
            have hiolt : io.toNat < sched1.length := by omega
            have hempty : sched1.getD io.toNat emptyRoutine = emptyRoutine := by
              rcases pent io.toNat hiolt with h | ⟨_, _, hordq⟩
              · rw [List.getD_eq_getElem _ _ hiolt]
                exact h
              · exfalso
                rw [List.getD_eq_getElem _ _ hiolt] at hord
                rw [hordq] at hord
                rw [maxsize] at hord h6
                rw [plen] at hiolt
                omega
            have hemptyname : (sched1.getD io.toNat emptyRoutine).name = "" := by
              rw [hempty]
              rfl
            have hintername : ¬ (mkIntermission interId interLength io).name = "" := by
              intro hc
              simp [mkIntermission] at hc
            have hdur1 : ∀ r ∈ sched1, 0 ≤ r.duration := by
              intro r hr
              obtain ⟨q, hq, hqe⟩ := List.mem_iff_getElem.mp hr
              rcases pent q hq with h | ⟨_, hd, _⟩
              · rw [← hqe, h]
                decide
              · rw [← hqe]
                exact hd
            refine ⟨⟨?_, ?_, ?_, ?_, ?_⟩, ?_⟩
            · -- countEmpty
              have hce := countEmpty_set sched1 io.toNat hiolt
                (mkIntermission interId interLength io) hemptyname hintername
              omega
            · -- intermission entry exists
              have hk2 : io.toNat < (sched1.set io.toNat
                  (mkIntermission interId interLength io)).length := by
                rw [List.length_set]
                exact hiolt
              refine ⟨io.toNat, hk2, ?_, ?_⟩
              · rw [List.get_eq_getElem]
                show ¬ (getElem (sched1.set io.toNat _) io.toNat hk2).name = ""
                rw [List.getElem_set_self]
                exact hintername
              · rw [List.get_eq_getElem]
                show (getElem (sched1.set io.toNat _) io.toNat hk2).performers = []
                rw [List.getElem_set_self]
                rfl
            · -- durations
              intro r hr
              rcases List.mem_or_eq_of_mem_set hr with h | h
              · exact hdur1 _ h
              · rw [h]
                exact h7
            · -- unused bounds
              exact pun
            · -- Nodup
              have hperm := nonEmptyIds_set_perm sched1 io.toNat hiolt
                (mkIntermission interId interLength io) hemptyname hintername
              have hnotin : interId ∉ (nonEmptyIds sched1 ++ unused.map
                  (fun i => (env.routines.getD i emptyRoutine).id)) := by
                intro hmem
                rcases List.mem_append.mp hmem with h | h
                · obtain ⟨r2, hr2, hr2id⟩ := List.mem_map.mp (psub _ h)
                  exact (h3 _ hr2) hr2id
                · obtain ⟨i2, hi2, hi2id⟩ := List.mem_map.mp h
                  have hi2lt : i2 < env.routines.length := pun _ hi2
                  have : env.routines.getD i2 emptyRoutine ∈ env.routines := by
                    rw [List.getD_eq_getElem _ _ hi2lt]
                    exact List.getElem_mem hi2lt
                  exact (h3 _ this) hi2id
              have hnd2 : (interId :: (nonEmptyIds sched1 ++ unused.map
                  (fun i => (env.routines.getD i emptyRoutine).id))).Nodup :=
                List.nodup_cons.mpr ⟨hnotin, pnd⟩
              have hbig := hperm.append_right (unused.map
                (fun i => (env.routines.getD i emptyRoutine).id))
              rw [List.cons_append] at hbig
              exact (hbig.symm).nodup hnd2
            · -- length
              rw [List.length_set, plen]
          · have hpy : pyIndex sched1.length io = none := by
              rw [pyIndex, if_neg, if_neg]
              · intro hc
                omega
              · intro hc
                exact hiolen hc.2
            rw [hpy] at hok
            exact absurd hok (by intro hc; exact Except.noConfusion hc)

theorem syncOrders_length (l : List Routine) : (syncOrders l).length = l.length := by
  rw [syncOrders, List.length_map, List.length_range]

theorem syncOrders_name (l : List Routine) (r : Routine) (hr : r ∈ syncOrders l) :
    ∃ r0 ∈ l, r.name = r0.name ∧ r.id = r0.id := by
  rw [syncOrders] at hr
  obtain ⟨i, hi, rfl⟩ := List.mem_map.mp hr
  have hilt : i < l.length := List.mem_range.mp hi
  refine ⟨l.getD i emptyRoutine, ?_, ?_, ?_⟩
  · rw [List.getD_eq_getElem _ _ hilt]
    exact List.getElem_mem hilt
  · show (if (l.getD i emptyRoutine).order = (i : Int) then l.getD i emptyRoutine
      else { l.getD i emptyRoutine with order := (i : Int) }).name
      = (l.getD i emptyRoutine).name
    split_ifs <;> rfl
  · show (if (l.getD i emptyRoutine).order = (i : Int) then l.getD i emptyRoutine
      else { l.getD i emptyRoutine with order := (i : Int) }).id
      = (l.getD i emptyRoutine).id
    split_ifs <;> rfl

theorem syncOrders_ids (l : List Routine) :
    (syncOrders l).map Routine.id = l.map Routine.id := by
  rw [syncOrders, List.map_map]
  have hcong : (List.range l.length).map (Routine.id ∘ (fun i =>
      let r := l.getD i emptyRoutine
      if r.order = (i : Int) then r else { r with order := (i : Int) }))
      = (List.range l.length).map (fun i => (l.getD i emptyRoutine).id) := by
    apply List.map_congr_left
    intro i _
    show (if (l.getD i emptyRoutine).order = (i : Int) then l.getD i emptyRoutine
      else { l.getD i emptyRoutine with order := (i : Int) }).id
      = (l.getD i emptyRoutine).id
    split_ifs <;> rfl
  rw [hcong]
  apply List.ext_getElem
  · simp
  · intro j h1 h2
    simp only [List.getElem_map, List.getElem_range]
    rw [List.getD_eq_getElem]

/-- Swapping twice is the identity. -/
theorem swapSt_swapSt (st : LinkSt) : swapSt (swapSt st) = st := rfl

/-- The strengthened link invariant is symmetric under the swap. -/
theorem goodSt_swapSt (st : LinkSt) (h : goodSt st) : goodSt (swapSt st) := by
  obtain ⟨h1, h2, h3, h4, h5, h6, h7, h8⟩ := h
  refine ⟨?_, h3, h2, ?_, h6, h5, h8, h7⟩
  · intro r hr p hp
    exact (h1 p hp r hr).symm
  · intro r hr p hp
    exact (h4 p hp r hr).symm

/-- The `Routine.__init__` loop body is the swap of the
`Performer.__init__` one. -/
theorem linkIntoPerf_swap (r : Nat) (st : LinkSt) (p : Nat) :
    linkIntoPerf r st p = swapSt (linkIntoRout r (swapSt st) p) := rfl

/-- `Routine.__init__` is the swap of `Performer.__init__`. -/
theorem mkRoutineAt_swap (st : LinkSt) (r c : Nat) :
    mkRoutineAt st r c = swapSt (mkPerformerAt (swapSt st) r c) := by
  rw [mkRoutineAt, mkPerformerAt]
  have hfold : ∀ (L : List Nat) (σ : LinkSt),
      L.foldl (linkIntoPerf r) σ = swapSt (L.foldl (linkIntoRout r) (swapSt σ)) := by
    intro L
    induction L with
    | nil => intro σ; rfl
    | cons x xs ih =>
        intro σ
        rw [List.foldl_cons, List.foldl_cons, ih, linkIntoPerf_swap,
          swapSt_swapSt]
  exact hfold _ _

/-- Routine construction from a fresh list is the swap of performer
construction from a fresh list. -/
theorem newRoutine_swap (st : LinkSt) (r : Nat) (content : List Nat) :
    newRoutine st r content = swapSt (newPerformer (swapSt st) r content) := by
  rw [newRoutine, newPerformer, mkRoutineAt_swap]
  rfl

/-- One pass of the `Performer.__init__` loop body preserves the fold
invariant, extending the processed prefix by the routine just linked. -/
theorem linkFold_step (st : LinkSt) (p c : Nat) (content done : List Nat)
    (σ : LinkSt) (r0 : Nat) (hr0 : r0 ∈ st.routs)
    (hperfc : ∀ q ∈ st.perfs, st.perfField q < c)
    (hinv : linkFoldInv st p c content done σ) :
    linkFoldInv st p c content (done ++ [r0]) (linkIntoRout p σ r0) := by
  obtain ⟨i1, i2, i3, i4, i5, i6, i7, i8, i9, i10, i11⟩ := hinv
  unfold linkIntoRout linkFoldInv
  dsimp only []
  refine ⟨i1, i2, i3, ?_, ?_, ?_, ?_, ?_, ?_, ?_, ?_⟩
  · rw [if_neg (Nat.ne_of_lt i5), if_neg (Ne.symm (i8 r0 hr0))]
    exact i4
  · omega
  · intro q hq
    have hlt := hperfc q hq
    rw [if_neg (show st.perfField q ≠ σ.nextCell by omega),
      if_neg (Ne.symm (i10 r0 hr0 q hq))]
    exact i6 q hq
  · intro r hr
    by_cases h : r = r0
    · rw [if_pos h]; omega
    · rw [if_neg h]
      have := i7 r hr
      omega
  · intro r hr
    by_cases h : r = r0
    · rw [if_pos h]
      omega
    · rw [if_neg h]
      exact i8 r hr
  · intro r hr s hs hrs
    by_cases h1 : r = r0 <;> by_cases h2 : s = r0
    · exact absurd (h1.trans h2.symm) hrs
    · rw [if_pos h1, if_neg h2]
      have := i7 s hs
      omega
    · rw [if_neg h1, if_pos h2]
      have := i7 r hr
      omega
    · rw [if_neg h1, if_neg h2]
      exact i9 r hr s hs hrs
  · intro r hr q hq
    by_cases h : r = r0
    · rw [if_pos h]
      have := hperfc q hq
      omega
    · rw [if_neg h]
      exact i10 r hr q hq
  · intro r hr x
    by_cases h : r = r0
    · subst h
      rw [if_pos rfl, if_pos rfl, List.mem_dedup, List.mem_append,
        i11 r hr x, List.mem_singleton, List.mem_append, List.mem_singleton]
      constructor
      · rintro ((hx | ⟨hxp, hd⟩) | hxp)
        · exact Or.inl hx
        · exact Or.inr ⟨hxp, Or.inl hd⟩
        · exact Or.inr ⟨hxp, Or.inr rfl⟩
      · rintro (hx | ⟨hxp, hd | hrr⟩)
        · exact Or.inl (Or.inl hx)
        · exact Or.inl (Or.inr ⟨hxp, hd⟩)
        · exact Or.inr hxp
    · rw [if_neg h,
        if_neg (show σ.routField r ≠ σ.nextCell from Nat.ne_of_lt (i7 r hr)),
        if_neg (i9 r hr r0 hr0 h), i11 r hr x, List.mem_append,
        List.mem_singleton]
      constructor
      · rintro (hx | ⟨hxp, hd⟩)
        · exact Or.inl hx
        · exact Or.inr ⟨hxp, Or.inl hd⟩
      · rintro (hx | ⟨hxp, hd | hrr⟩)
        · exact Or.inl hx
        · exact Or.inr ⟨hxp, hd⟩
        · exact absurd hrr h

/-- The whole `Performer.__init__` loop preserves the fold invariant. -/
theorem linkFold_all (st : LinkSt) (p c : Nat) (content : List Nat)
    (hperfc : ∀ q ∈ st.perfs, st.perfField q < c) :
    ∀ (todo done : List Nat) (σ : LinkSt),
      (∀ r ∈ todo, r ∈ st.routs) →
      linkFoldInv st p c content done σ →
      linkFoldInv st p c content (done ++ todo)
        (todo.foldl (linkIntoRout p) σ) := by
  intro todo
  induction todo with
  | nil =>
      intro done σ _ hinv
      simpa using hinv
  | cons r0 rest ih =>
      intro done σ htodo hinv
      rw [List.foldl_cons]
      have hstep := linkFold_step st p c content done σ r0
        (htodo r0 (List.mem_cons_self _ _)) hperfc hinv
      have hrest := ih (done ++ [r0]) (linkIntoRout p σ r0)
        (fun r hr => htodo r (List.mem_cons_of_mem _ hr)) hstep
      rw [List.append_assoc, List.singleton_append] at hrest
      exact hrest

/-- Constructing a performer from a fresh, unaliased list of existing
routines preserves the strengthened link invariant. -/
theorem newPerformer_good (st : LinkSt) (p : Nat) (content : List Nat)
    (hst : goodSt st) (hp : p ∉ st.perfs)
    (hcont : ∀ r ∈ content, r ∈ st.routs) :
    goodSt (newPerformer st p content) := by
  obtain ⟨g1, g2, g3, g4, g5, g6, g7, g8⟩ := hst
  have hbase : linkFoldInv st p st.nextCell content []
      { nextCell := st.nextCell + 1,
        heap := fun x => if x = st.nextCell then content else st.heap x,
        perfField := fun x => if x = p then st.nextCell else st.perfField x,
        routField := st.routField,
        perfs := p :: st.perfs, routs := st.routs } := by
    refine ⟨rfl, rfl, fun q => rfl, if_pos rfl, Nat.lt_succ_self _, ?_, ?_,
      ?_, ?_, ?_, ?_⟩
    · intro q hq
      exact if_neg (Nat.ne_of_lt (g5 q hq))
    · intro r hr
      show st.routField r < st.nextCell + 1
      have := g6 r hr
      omega
    · intro r hr
      exact Nat.ne_of_lt (g6 r hr)
    · intro r hr s hs hne
      exact g3 r hr s hs hne
    · intro r hr q hq
      exact (g4 q hq r hr).symm
    · intro r hr x
      show x ∈ (if st.routField r = st.nextCell then content
          else st.heap (st.routField r)) ↔ _
      rw [if_neg (Nat.ne_of_lt (g6 r hr))]
      simp
  have hfold := linkFold_all st p st.nextCell content g5 content []
    _ hcont hbase
  rw [List.nil_append] at hfold
  have hrun : newPerformer st p content = content.foldl (linkIntoRout p)
      { nextCell := st.nextCell + 1,
        heap := fun x => if x = st.nextCell then content else st.heap x,
        perfField := fun x => if x = p then st.nextCell else st.perfField x,
        routField := st.routField,
        perfs := p :: st.perfs, routs := st.routs } := by
    show ((if st.nextCell = st.nextCell then content
        else st.heap st.nextCell)).foldl (linkIntoRout p) _ = _
    rw [if_pos rfl]
  rw [hrun]
  obtain ⟨i1, i2, i3, i4, i5, i6, i7, i8, i9, i10, i11⟩ := hfold
  refine ⟨?_, ?_, ?_, ?_, ?_, ?_, ?_, ?_⟩
  · intro q hq r hr
    rw [i1] at hq
    rw [i2] at hr
    rcases List.mem_cons.mp hq with hqp | hq0
    · subst hqp
      rw [i3 q, if_pos rfl, i4, i11 r hr q]
      constructor
      · intro h
        exact Or.inr ⟨rfl, h⟩
      · rintro (h | ⟨-, h⟩)
        · exact absurd (g8 r hr q h) hp
        · exact h
    · have hqne : q ≠ p := fun h => hp (h ▸ hq0)
      rw [i3 q, if_neg hqne, i6 q hq0, i11 r hr q]
      constructor
      · intro h
        exact Or.inl ((g1 q hq0 r hr).mp h)
      · rintro (h | ⟨hqp2, -⟩)
        · exact (g1 q hq0 r hr).mpr h
        · exact absurd hqp2 hqne
  · intro q hq q2 hq2 hne
    rw [i1] at hq hq2
    rw [i3 q, i3 q2]
    rcases List.mem_cons.mp hq with h1 | h1 <;>
      rcases List.mem_cons.mp hq2 with h2 | h2
    · exact absurd (h1.trans h2.symm) hne
    · subst h1
      have h2ne : q2 ≠ q := fun hh => hp (hh ▸ h2)
      rw [if_pos rfl, if_neg h2ne]
      have := g5 q2 h2
      omega
    · subst h2
      have h1ne : q ≠ q2 := fun hh => hp (hh ▸ h1)
      rw [if_neg h1ne, if_pos rfl]
      have := g5 q h1
      omega
    · have h1ne : q ≠ p := fun hh => hp (hh ▸ h1)
      have h2ne : q2 ≠ p := fun hh => hp (hh ▸ h2)
      rw [if_neg h1ne, if_neg h2ne]
      exact g2 q h1 q2 h2 hne
  · intro r hr s hs hne
    rw [i2] at hr hs
    exact i9 r hr s hs hne
  · intro q hq r hr
    rw [i1] at hq
    rw [i2] at hr
    rw [i3 q]
    rcases List.mem_cons.mp hq with h1 | h1
    · subst h1
      rw [if_pos rfl]
      exact (i8 r hr).symm
    · have h1ne : q ≠ p := fun hh => hp (hh ▸ h1)
      rw [if_neg h1ne]
      exact (i10 r hr q h1).symm
  · intro q hq
    rw [i1] at hq
    rw [i3 q]
    rcases List.mem_cons.mp hq with h1 | h1
    · rw [if_pos h1]
      exact i5
    · have h1ne : q ≠ p := fun hh => hp (hh ▸ h1)
      rw [if_neg h1ne]
      have := g5 q h1
      omega
  · intro r hr
    rw [i2] at hr
    exact i7 r hr
  · intro q hq x hx
    rw [i2]
    rw [i1] at hq
    rw [i3 q] at hx
    rcases List.mem_cons.mp hq with h1 | h1
    · rw [if_pos h1, i4] at hx
      exact hcont x hx
    · have h1ne : q ≠ p := fun hh => hp (hh ▸ h1)
      rw [if_neg h1ne, i6 q h1] at hx
      exact g7 q h1 x hx
  · intro r hr x hx
    rw [i2] at hr
    rw [i1]
    rw [i11 r hr x] at hx
    rcases hx with h | ⟨hxp, -⟩
    · exact List.mem_cons_of_mem _ (g8 r hr x h)
    · rw [hxp]
      exact List.mem_cons_self _ _

/-- Constructing a routine from a fresh, unaliased list of existing
performers preserves the strengthened link invariant (by the swap
symmetry). -/
theorem newRoutine_good (st : LinkSt) (r : Nat) (content : List Nat)
    (hst : goodSt st) (hr : r ∉ st.routs)
    (hcont : ∀ p ∈ content, p ∈ st.perfs) :
    goodSt (newRoutine st r content) := by
  rw [newRoutine_swap]
  exact goodSt_swapSt _
    (newPerformer_good (swapSt st) r content (goodSt_swapSt st hst) hr hcont)

/-- A well-formed trace of fresh-list constructor calls preserves the
strengthened link invariant. -/
theorem runOps_good (ops : List LinkOp) :
    ∀ st : LinkSt, goodSt st → wfOps st ops → goodSt (runOps st ops) := by
  induction ops with
  | nil =>
      intro st h _
      exact h
  | cons op rest ih =>
      intro st hg hwf
      obtain ⟨hop, hrest⟩ := hwf
      refine ih (runOp st op) ?_ hrest
      cases op with
      | newPerf p content => exact newPerformer_good st p content hg hop.1 hop.2
      | newRout r content => exact newRoutine_good st r content hg hop.1 hop.2

/-! ## Claim theorems -/

/-- C1: the placement step does pick the unplaced routine of maximum
priority score first (`firstArgmax` returns index 0, selecting `fxR1`),
and it does score every empty position — but it does *not* retain the
top `beamWidth` positions.  On the reachable state
`mkScheduler [fxB, fxR1, fxR2]` (schedule `fxSched1`, unplaced `[1, 2]`,
beam width `min 3 2 = 2`, two empty candidate positions 1 and 3 with the
position-3 score larger), the slicing `pos[:j] + [i] + pos[j+1:-1]` drops
an element on every non-final insertion, so the retained list is `[3]`
alone instead of the top-2 list `[3, 1]`: position 1 is never recursed
on. -/
theorem C1_beam_drops_top_positions :
    mkScheduler [fxB, fxR1, fxR2] 900 9 none = .ok (fxSched1, [1, 2]) ∧
    firstArgmax (fun x => (fxEnv1.routines.getD x emptyRoutine).score fxEnv1.pscore)
      [1, 2] = some 0 ∧
    (candScan fxEnv1.pscore fxR1 fxSched1).map Prod.fst = [1, 3] ∧
    (beamScan fxEnv1.pscore fxR1 fxSched1 (min 3 2)).map Prod.fst = [3] ∧
    (specTopK (min 3 2) (candScan fxEnv1.pscore fxR1 fxSched1)).map Prod.fst = [3, 1] := by
  decide

/-- C2: the rest component subtracts both durations for a *non-adjacent*
pair.  Performer 0 dances `fxX` (position 0, duration 100) and `fxZ`
(position 2, duration 30): the source's test `order0 - order1 <= 1`
holds (`0 - 2 = -2 ≤ 1`), so it subtracts 130 and also adds the
in-between duration 50, giving −80, where the claim prescribes +50 (only
the strictly-between durations).  Scaled by the performer's score 2² the
schedule score is −320 instead of +200. -/
theorem C2_rest_subtracted_for_nonadjacent_pair :
    perfRest fxSchedC2 [fxX, fxZ] = some (-80) ∧
    perfRestSpec fxSchedC2 [fxX, fxZ] = 50 ∧
    scoreSchedule [[fxX, fxZ]] fxSchedC2 = some (-320) ∧
    scoreSchedule [[fxX, fxZ]] fxSchedC2 ≠ some (50 * 4 + 0) := by
  decide

/-- C3 counterexample: probing outward from midpoint 2 of a length-5
schedule whose only pre-placed position is 2, the code places the
intermission at position 3 (probe order `2, 2, 3, ...`), while the
claimed probe order (`2, 1, 4, ...`) would place it at position 1. -/
theorem C3_probe_order_counterexample :
    mkScheduler fxC3 900 9 none =
      .ok ([emptyRoutine, emptyRoutine, fxC3.getD 0 emptyRoutine,
            mkIntermission 9 900 3, emptyRoutine], [1, 2, 3]) ∧
    codeInterOrder fxOccC3 5 = some 3 ∧
    claimInterOrder fxOccC3 5 = some 1 ∧
    some (3 : Int) ≠ some (1 : Int) := by
  decide

/-- C3 amended: with no explicit intermission position, construction
probes schedule positions in the order `m, m, m+1, m-1, m+2, m-2, ...`
(`m` the truncated midpoint, probed twice because the first update
subtracts a zero counter; this is `codeProbe m 0, codeProbe m 1, ...`),
and stops at the first probe that is out of the schedule bounds or holds
no pre-placed routine: earlier probes are all in range and occupied.
When the stopping probe is in range the intermission is placed there;
when it is out of range the subsequent assignment is the error
condition. -/
theorem C3_intermission_zigzag_amended (occ : Int → Bool) (len : Nat) :
    codeInterOrder occ len
      = some (codeProbe ((len / 2 : Nat) : Int) (firstExit occ len)) ∧
    probeExits occ len ((len / 2 : Nat) : Int) (firstExit occ len) ∧
    (∀ b, b < firstExit occ len → ¬ probeExits occ len ((len / 2 : Nat) : Int) b) := by
  exact ⟨codeInterOrder_eq_firstExit occ len, Nat.find_spec _,
    fun b hb => Nat.find_min _ hb⟩

/-- C4: positions holding the empty placeholder are *not* skipped.  On
`fxSchedC4 = [empty, fxX, empty]`, scoring `fxC` at position 0 sums the
pair score against position 2, an empty placeholder (the identity test
`schedule[i] == Routine('',[])` never fires), contributing the `maxsize`
sentinel: the code's value is `2 * maxsize` where the claimed skipping
behaviour gives `maxsize`. -/
theorem C4_empty_positions_scored :
    fxSchedC4.getD 2 emptyRoutine = emptyRoutine ∧
    scoreRoutInSched (fun _ => 1) fxC 0 fxSchedC4 = 2 * maxsize ∧
    scoreRoutInSchedSpec (fun _ => 1) fxC 0 fxSchedC4 = maxsize ∧
    scoreRoutInSched (fun _ => 1) fxC 0 fxSchedC4 ≠
      scoreRoutInSchedSpec (fun _ => 1) fxC 0 fxSchedC4 := by
  decide

/-- C7: when two routines share no performers, `score2routines` returns
the `maxsize` sentinel reduced by 1 exactly when the positions are
adjacent and both routines are low-energy; and under realistic bounds —
pair scores and durations at most 2^20 = 1048576, schedule durations
non-negative and either the `maxsize` sentinel or at most 2^20, schedule
length at most 1024 — that sentinel value strictly exceeds every score
computed for a pair that does share performers. -/
theorem C7_no_shared_sentinel_dominates
    (pscore : Nat → Nat) (schedule : List Routine)
    (i0 i1 j0 j1 : Nat) (r0 r1 q0 q1 : Routine)
    (hnoshare : r0.samePerformers r1 = [])
    (hshare : ¬ q0.samePerformers q1 = [])
    (hs0 : q0.score pscore ≤ 1048576) (hs1 : q1.score pscore ≤ 1048576)
    (hq0 : 0 ≤ q0.duration) (hq0b : q0.duration ≤ 1048576)
    (hq1 : 0 ≤ q1.duration) (hq1b : q1.duration ≤ 1048576)
    (hsched : ∀ r ∈ schedule,
      0 ≤ r.duration ∧ (r.duration = maxsize ∨ r.duration ≤ 1048576))
    (hj : j1 ≤ schedule.length) (hlen : schedule.length ≤ 1024) :
    score2routines pscore i0 i1 schedule r0 r1
      = maxsize - (if adjacent i0 i1 ∧ r0.energy = false ∧ r1.energy = false
                   then 1 else 0) ∧
    score2routines pscore j0 j1 schedule q0 q1
      < score2routines pscore i0 i1 schedule r0 r1 := by
  have heq := score2routines_no_shared pscore i0 i1 schedule r0 r1 hnoshare
  refine ⟨heq, ?_⟩
  have hscale0 : (0 : Int) ≤ ((((q0.samePerformers q1).map pscore).sum : Nat) : Int) :=
    Int.natCast_nonneg _
  have hscaleB : ((((q0.samePerformers q1).map pscore).sum : Nat) : Int) ≤ 1048576 := by
    refine le_trans ?_ hs0
    unfold Routine.score Routine.samePerformers
    exact_mod_cast mapFilterSumLe pscore _ q0.performers
  have hub : score2routines pscore j0 j1 schedule q0 q1 < maxsize - 1 := by
    rw [score2routines_shared pscore j0 j1 schedule q0 q1 hshare]
    have hmem : ∀ x ∈ ((List.range' (j0 + 1) (j1 - (j0 + 1))).map (fun j =>
        let d := (schedule.getD j emptyRoutine).duration
        if d = maxsize then
          Int.fdiv (((((q0.samePerformers q1).map pscore).sum : Nat) : Int) *
            (q0.duration + q1.duration)) 2
        else ((((q0.samePerformers q1).map pscore).sum : Nat) : Int) * d)),
        x ≤ 1099511627776 := by
      intro x hx
      obtain ⟨j, hj2, rfl⟩ := List.mem_map.mp hx
      obtain ⟨hj3, hj4⟩ := List.mem_range'_1.mp hj2
      have hjlt : j < schedule.length := by omega
      rw [List.getD_eq_getElem schedule emptyRoutine hjlt]
      obtain ⟨hd0, hd1⟩ := hsched _ (List.getElem_mem hjlt)
      by_cases hdm : schedule[j].duration = maxsize
      · simp only [hdm, if_pos]
        have hprodB : ((((q0.samePerformers q1).map pscore).sum : Nat) : Int) *
            (q0.duration + q1.duration) ≤ 1048576 * 2097152 :=
          mul_le_mul hscaleB (by omega) (by omega) (by norm_num)
        rw [Int.fdiv_eq_ediv _ (by norm_num)]
        have hdd : ((((q0.samePerformers q1).map pscore).sum : Nat) : Int) *
            (q0.duration + q1.duration) / 2 ≤ 1048576 * 2097152 / 2 :=
          Int.ediv_le_ediv (by norm_num) hprodB
        omega
      · simp only [hdm, if_neg, if_false]
        have hdB : schedule[j].duration ≤ 1048576 := by
          rcases hd1 with h | h
          · exact absurd h hdm
          · exact h
        calc ((((q0.samePerformers q1).map pscore).sum : Nat) : Int) *
              schedule[j].duration
            ≤ 1048576 * 1048576 := mul_le_mul hscaleB hdB hd0 (by norm_num)
          _ = 1099511627776 := by norm_num
    have hsum := List.sum_le_card_nsmul _ _ hmem
    have hlenM : ((List.range' (j0 + 1) (j1 - (j0 + 1))).map (fun j =>
        let d := (schedule.getD j emptyRoutine).duration
        if d = maxsize then
          Int.fdiv (((((q0.samePerformers q1).map pscore).sum : Nat) : Int) *
            (q0.duration + q1.duration)) 2
        else ((((q0.samePerformers q1).map pscore).sum : Nat) : Int) * d)).length ≤ 1024 := by
      rw [List.length_map, List.length_range']
      omega
    have hsum2 : ((List.range' (j0 + 1) (j1 - (j0 + 1))).map (fun j =>
        let d := (schedule.getD j emptyRoutine).duration
        if d = maxsize then
          Int.fdiv (((((q0.samePerformers q1).map pscore).sum : Nat) : Int) *
            (q0.duration + q1.duration)) 2
        else ((((q0.samePerformers q1).map pscore).sum : Nat) : Int) * d)).sum
        ≤ 1024 * 1099511627776 := by
      refine le_trans hsum ?_
      rw [nsmul_eq_mul]
      have := hlenM
      have hc : (((List.range' (j0 + 1) (j1 - (j0 + 1))).map (fun j =>
        let d := (schedule.getD j emptyRoutine).duration
        if d = maxsize then
          Int.fdiv (((((q0.samePerformers q1).map pscore).sum : Nat) : Int) *
            (q0.duration + q1.duration)) 2
        else ((((q0.samePerformers q1).map pscore).sum : Nat) : Int) * d)).length : Int)
          ≤ 1024 := by exact_mod_cast hlenM
      nlinarith
    have hsc0 : 0 ≤ q0.score pscore := by
      unfold Routine.score; exact Int.natCast_nonneg _
    have hsc1 : 0 ≤ q1.score pscore := by
      unfold Routine.score; exact Int.natCast_nonneg _
    have hbonus : (if adjacent j0 j1 ∧ q0.energy = false ∧ q1.energy = false
        then q0.duration + q1.duration else 0) ≤ 2097152 := by
      split_ifs
      · omega
      · norm_num
    have hmax : maxsize = 9223372036854775807 := rfl
    omega
  have hif : (if adjacent i0 i1 ∧ r0.energy = false ∧ r1.energy = false
      then (1 : Int) else 0) ≤ 1 := by
    split_ifs <;> norm_num
  rw [heq]
  have hmax : maxsize = 9223372036854775807 := rfl
  omega

/-- Witness for `C7_no_shared_sentinel_dominates`: the independent pair
`(fxR2, fxA)` at positions (0, 1) against the sharing pair `(fxB, fxR1)`
at positions (0, 2) in the schedule `fxSchedC2`. -/
theorem C7_no_shared_sentinel_dominates_witness :
    (fxR2.samePerformers fxA = [] ∧
     ¬ fxB.samePerformers fxR1 = [] ∧
     fxB.score fxEnv1.pscore ≤ 1048576 ∧
     fxR1.score fxEnv1.pscore ≤ 1048576 ∧
     0 ≤ fxB.duration ∧ fxB.duration ≤ 1048576 ∧
     0 ≤ fxR1.duration ∧ fxR1.duration ≤ 1048576 ∧
     (∀ r ∈ fxSchedC2,
       0 ≤ r.duration ∧ (r.duration = maxsize ∨ r.duration ≤ 1048576)) ∧
     2 ≤ fxSchedC2.length ∧ fxSchedC2.length ≤ 1024) ∧
    (score2routines fxEnv1.pscore 0 1 fxSchedC2 fxR2 fxA
       = maxsize - (if adjacent 0 1 ∧ fxR2.energy = false ∧ fxA.energy = false
                    then 1 else 0) ∧
     score2routines fxEnv1.pscore 0 2 fxSchedC2 fxB fxR1
       < score2routines fxEnv1.pscore 0 1 fxSchedC2 fxR2 fxA) :=
  ⟨⟨by decide, by decide, by decide, by decide, by decide, by decide, by decide,
    by decide, by decide, by decide, by decide⟩,
   C7_no_shared_sentinel_dominates fxEnv1.pscore fxSchedC2 0 1 0 2 fxR2 fxA fxB fxR1
     (by decide) (by decide) (by decide) (by decide) (by decide) (by decide)
     (by decide) (by decide) (by decide) (by decide) (by decide)⟩

/-- C8 counterexample: on a schedule whose two pre-placed routines ended
up swapped, `sortRoutines` reports both positions but does *not* abort —
it proceeds through the whole loop — and both routines' `order` fields
*are* overwritten with their new positions, contrary to the claim. -/
theorem C8_moved_routine_overwritten_not_fatal :
    movedReport fxSwap = [0, 1] ∧
    (syncOrders fxSwap).map Routine.order = [0, 1] ∧
    fxSwap.map Routine.order = [1, 0] ∧
    ((syncOrders fxSwap).getD 0 emptyRoutine).order ≠
      (fxSwap.getD 0 emptyRoutine).order := by
  decide

/-- C8 amended: after the search, `sortRoutines` overwrites *every*
routine's `order` field with its position — including a pre-placed
routine that ended up elsewhere — and for exactly those moved pre-placed
routines (old order valid but different from the position) it prints the
"Moved a set routine" diagnostic and continues; nothing aborts the run. -/
theorem C8_sync_overwrites_amended (schedule : List Routine) (i : Nat)
    (hi : i < schedule.length) :
    ((syncOrders schedule).getD i emptyRoutine).order = (i : Int) ∧
    (i ∈ movedReport schedule ↔
      (schedule.getD i emptyRoutine).order ≠ (i : Int) ∧
      (schedule.getD i emptyRoutine).order < (schedule.length : Int)) := by
  constructor
  · have hlen : i < (syncOrders schedule).length := by
      simpa [syncOrders] using hi
    rw [List.getD_eq_getElem _ _ hlen]
    simp only [syncOrders, List.getElem_map, List.getElem_range]
    split_ifs with h
    · exact h
    · rfl
  · simp only [movedReport, List.mem_filter, List.mem_range, decide_eq_true_eq]
    constructor
    · rintro ⟨_, h⟩; exact h
    · intro h; exact ⟨hi, h⟩

/-- Witness for `C8_sync_overwrites_amended` at `fxSwap`, position 0. -/
theorem C8_sync_overwrites_amended_witness :
    0 < fxSwap.length ∧
    (((syncOrders fxSwap).getD 0 emptyRoutine).order = (0 : Int) ∧
      (0 ∈ movedReport fxSwap ↔
        (fxSwap.getD 0 emptyRoutine).order ≠ (0 : Int) ∧
        (fxSwap.getD 0 emptyRoutine).order < (fxSwap.length : Int))) :=
  ⟨by decide, C8_sync_overwrites_amended fxSwap 0 (by decide)⟩

/-- C9: when `fxP` and `fxQ` both request fixed position 2, construction
detects the conflict but the handler crashes with an uncaught `TypeError`
(`"Original:\n" + x` with `x` a `Routine`), aborting construction — the
names are never both printed and the last-write-wins continuation never
happens. -/
theorem C9_conflict_handler_crashes :
    mkScheduler [fxP, fxQ] 900 7 none = .error .conflictTypeError := by
  decide

/-- C10: supplying any explicit intermission position makes construction
raise `NameError` (source line 192 reads the undefined name
`intermLength`), for every routine list, intermission length and
position — construction never succeeds, so the position is never
honored. -/
theorem C10_explicit_position_raises_name_error
    (routines : List Routine) (interLength : Int) (interId : Nat) (io : Int) :
    mkScheduler routines interLength interId (some io) = .error .interNameError := by
  rfl

/-- C5: on any input whose routines have real names, non-negative
durations, distinct identities (all different from the intermission's),
and an order that is either valid and in range or the `maxsize`
"unassigned" sentinel, whenever construction succeeds and the placement
search (`sortRoutines` = `sortHelper` followed by the order
synchronisation) completes, the resulting schedule has one position per
routine plus the intermission, every position holds a non-empty routine,
and no two positions hold the same routine instance. -/
theorem C5_search_fills_every_position (env : Env) (interLength : Int)
    (interId : Nat) (out : List Routine)
    (h1 : ∀ r ∈ env.routines, ¬ r.name = "" ∧ 0 ≤ r.duration ∧
      ((0 ≤ r.order ∧ r.order < (env.routines.length : Int) + 1) ∨ r.order = maxsize))
    (h2 : (env.routines.map Routine.id).Nodup)
    (h3 : ∀ r ∈ env.routines, ¬ r.id = interId)
    (h6 : ((env.routines.length : Int) + 1) < maxsize)
    (h7 : 0 ≤ interLength)
    (hrun : runScheduler env interLength interId = .ok (some out)) :
    out.length = env.routines.length + 1 ∧
    (∀ r ∈ out, ¬ r.name = "") ∧
    (out.map Routine.id).Nodup := by
  rw [runScheduler] at hrun
  cases hmk : mkScheduler env.routines interLength interId none with
  | error e =>
      rw [hmk] at hrun
      exact absurd hrun (by intro hc; exact Except.noConfusion hc)
  | ok su =>
      obtain ⟨s, u⟩ := su
      rw [hmk] at hrun
      have hmap : (sortHelper env s u).map syncOrders = some out := by
        have := Except.ok.inj hrun
        exact this
      obtain ⟨out0, hout0, hsync⟩ := Option.map_eq_some'.mp hmap
      obtain ⟨hinv, hlen⟩ := mkScheduler_inv env interLength interId h1 h2 h3 h6 h7 s u hmk
      have henv : envOk env := ⟨fun r hr => ⟨(h1 r hr).1, (h1 r hr).2.1⟩, h2⟩
      rw [sortHelper] at hout0
      have hres := sortHelperFuel_complete env henv (u.length + 1) s u hinv out0 hout0
      refine ⟨?_, ?_, ?_⟩
      · rw [← hsync, syncOrders_length, hres.1, hlen]
      · intro r hr
        rw [← hsync] at hr
        obtain ⟨r0, hr0, hname, _⟩ := syncOrders_name _ _ hr
        rw [hname]
        exact hres.2.1 _ hr0
      · rw [← hsync, syncOrders_ids]
        exact hres.2.2

/-- Witness for `C5_search_fills_every_position`: the one-routine input
`fxEnvA` (routine `fxA`, no fixed positions), intermission length 900 and
identity 7, producing `fxOutA`. -/
theorem C5_search_fills_every_position_witness :
    ((∀ r ∈ fxEnvA.routines, ¬ r.name = "" ∧ 0 ≤ r.duration ∧
        ((0 ≤ r.order ∧ r.order < (fxEnvA.routines.length : Int) + 1) ∨
          r.order = maxsize)) ∧
      (fxEnvA.routines.map Routine.id).Nodup ∧
      (∀ r ∈ fxEnvA.routines, ¬ r.id = 7) ∧
      ((fxEnvA.routines.length : Int) + 1) < maxsize ∧
      (0 : Int) ≤ 900 ∧
      runScheduler fxEnvA 900 7 = .ok (some fxOutA)) ∧
    (fxOutA.length = fxEnvA.routines.length + 1 ∧
     (∀ r ∈ fxOutA, ¬ r.name = "") ∧
     (fxOutA.map Routine.id).Nodup) :=
  ⟨⟨by decide, by decide, by decide, by decide, by decide, by decide⟩,
   C5_search_fills_every_position fxEnvA 900 7 fxOutA
     (by decide) (by decide) (by decide) (by decide) (by decide) (by decide)⟩

/-- C6 counterexample: `Performer('a')`, `Performer('b')` (both using the
def-time shared default `routines=[]` list), then `Routine('R', [a])`.
The append inside `Routine.__init__` mutates the shared default cell, so
routine 20 appears in performer 11's routine list while performer 11 is
not among routine 20's performers: the bidirectional invariant fails
after ordinary constructor calls. -/
theorem C6_shared_default_breaks_invariant :
    ¬ linked fxLinkSt3 ∧
    11 ∈ fxLinkSt3.perfs ∧ 20 ∈ fxLinkSt3.routs ∧
    20 ∈ fxLinkSt3.heap (fxLinkSt3.perfField 11) ∧
    11 ∉ fxLinkSt3.heap (fxLinkSt3.routField 20) := by
  decide

/-- C6 amended: the constructors do keep `r ∈ p.routines ⟺
p ∈ r.performers` bidirectional — *provided* every constructor call
passes a fresh, unaliased list (so the mutable def-time defaults of
`routines=[]` / `performers=[]` are never used).  Any well-formed trace
of such calls (each new object distinct, each passed list mentioning
only already-existing objects of the right kind), started from a state
satisfying the strengthened invariant `goodSt`, ends in a state where
the bidirectional link invariant holds. -/
theorem C6_fresh_lists_keep_invariant (st : LinkSt) (ops : List LinkOp)
    (hst : goodSt st) (hwf : wfOps st ops) :
    linked (runOps st ops) :=
  (runOps_good ops st hst hwf).1

theorem C6_fresh_lists_keep_invariant_witness :
    goodSt initLinkSt ∧ wfOps initLinkSt fxLinkOps ∧
      linked (runOps initLinkSt fxLinkOps) :=
  ⟨by decide, by decide,
    C6_fresh_lists_keep_invariant initLinkSt fxLinkOps (by decide) (by decide)⟩

end DanceSched
